import Mathlib

/-!
Verification of the protobuf wire codec generated in
pkg/api/envoy/extensions/common/tap/v4alpha/common.pb.go: the messages
CommonExtensionConfig, CommonExtensionConfig_TapDSConfig and AdminConfig,
their Marshal / Size / Unmarshal routines, and the shared varint and
skip helpers.

Modelling conventions.  Byte sequences are lists of naturals (every byte of
a Go slice satisfies b < 256, and the definitions below inspect bytes only
through masks and comparisons that agree with Go uint8 semantics on such
values).  Go strings are byte sequences.  A nil byte slice and an empty one
are identified, which is sound here because the generated code treats them
identically on the wire.  Go's int is 64-bit: a quantity that the source
checks for negativity after a wrapping computation is represented by its
mathematical value together with an explicit `2 ^ 63 ≤ _` test, which is
exactly the Go test for all states reachable with a representable slice
(length below 2 ^ 63).
-/

namespace TapCodec

abbrev Bytes := List Nat

/-- Decode errors of the generated file, one constructor per distinct error
value: the gogo sentinel errors, io.ErrUnexpectedEOF and the fmt.Errorf
cases. -/
inductive PErr where
  | intOverflow
  | unexpectedEOF
  | invalidLength
  | endOfGroup
  | endGroupForNonGroup
  | illegalTag
  | wrongWireType
  | illegalWireType
  deriving DecidableEq, Repr

/-- Equality of fallible results is decidable, so concrete runs of the
codec can be checked by evaluation. -/
instance {ε α : Type} [DecidableEq ε] [DecidableEq α] :
    DecidableEq (Except ε α) := fun a b =>
  match a, b with
  | .error e, .error f => decidable_of_iff (e = f) (by simp)
  | .error _, .ok _ => .isFalse (fun hc => Except.noConfusion hc)
  | .ok _, .error _ => .isFalse (fun hc => Except.noConfusion hc)
  | .ok v, .ok w => decidable_of_iff (v = w) (by simp)

/-- Interpretation of the low 32 bits of a natural as a signed int32, as in
the Go conversion int32(wire >> 3) at source line 587. -/
def toSigned32 (n : Nat) : Int :=
  if n % 2 ^ 32 < 2 ^ 31 then ((n % 2 ^ 32 : Nat) : Int)
  else ((n % 2 ^ 32 : Nat) : Int) - 2 ^ 32

/-- The inlined varint-reading loop of the generated Unmarshal functions
(source lines 573-586 and the analogous blocks): reads base-128
continuation bytes from the front of the buffer, accumulating into a uint64
with Go's truncating shift-or, failing with ErrIntOverflowCommon once the
shift reaches 64 and with io.ErrUnexpectedEOF when the buffer ends
mid-varint.  Returns the accumulated value and the number of bytes
consumed. -/
def readVarint (data : Bytes) (shift acc : Nat) : Except PErr (Nat × Nat) :=
  if shift ≥ 64 then .error .intOverflow
  else
    match data with
    | [] => .error .unexpectedEOF
    | b :: rest =>
      if b < 0x80 then .ok (acc ||| ((b &&& 0x7F) <<< shift) % 2 ^ 64, 1)
      else
        match readVarint rest (shift + 7)
            (acc ||| ((b &&& 0x7F) <<< shift) % 2 ^ 64) with
        | .error e => .error e
        | .ok (v, k) => .ok (v, k + 1)

/-- sovCommon (source lines 561-563): (bits.Len64(x|1) + 6) / 7, the byte
length of the varint encoding of x. -/
def sovCommon (x : Nat) : Nat := (Nat.log2 (x ||| 1) + 1 + 6) / 7

/-- The byte sequence deposited by encodeVarintCommon (source lines
463-473): little-endian base-128 groups with continuation bits, the final
byte below 0x80. -/
def putVarint (v : Nat) : Bytes :=
  if h : v ≥ 2 ^ 7 then (v &&& 0x7F ||| 0x80) :: putVarint (v >>> 7) else [v]
termination_by v
decreasing_by
  simp only [Nat.shiftRight_eq_div_pow]
  exact Nat.div_lt_self (by omega) (by norm_num)

/-- Modelled from the spec: v3.TapConfig, an external message of the tap
configuration schema whose code is outside this repository, is consumed as
an opaque type; only its Marshal / Size / Unmarshal contract is used
(spec section 6), so it is modelled as the raw byte payload it carries. -/
structure TapConfig where
  payload : Bytes
  deriving DecidableEq, Repr

/-- Modelled from the spec: v4alpha.ConfigSource, an external remote-config
source descriptor whose code is outside this repository, consumed as an
opaque type with only its Marshal / Size / Unmarshal contract. -/
structure ConfigSource where
  payload : Bytes
  deriving DecidableEq, Repr

/-- Modelled from the spec: the external message's Size method. -/
def TapConfig.size (m : TapConfig) : Nat := m.payload.length

/-- Modelled from the spec: the external message's MarshalToSizedBuffer
output. -/
def TapConfig.encode (m : TapConfig) : Bytes := m.payload

/-- Modelled from the spec: the external message's Unmarshal, which merges
the incoming bytes into the receiver; on the data this codec feeds it
(its own encodings) it succeeds. -/
def TapConfig.unmarshal (m : TapConfig) (b : Bytes) : TapConfig :=
  ⟨m.payload ++ b⟩

/-- Modelled from the spec: the external message's Size method. -/
def ConfigSource.size (m : ConfigSource) : Nat := m.payload.length

/-- Modelled from the spec: the external message's MarshalToSizedBuffer
output. -/
def ConfigSource.encode (m : ConfigSource) : Bytes := m.payload

/-- Modelled from the spec: the external message's merging Unmarshal. -/
def ConfigSource.unmarshal (m : ConfigSource) (b : Bytes) : ConfigSource :=
  ⟨m.payload ++ b⟩

/-- AdminConfig (source lines 191-198): the ConfigId string plus the
unrecognized-byte carryover. -/
structure AdminConfig where
  ConfigId : Bytes
  XXX_unrecognized : Bytes
  deriving DecidableEq, Repr

/-- CommonExtensionConfig_TapDSConfig (source lines 132-140): a pointer to
an external ConfigSource, the Name string, and the unrecognized-byte
carryover. -/
structure TapDSConfig where
  ConfigSource : Option ConfigSource
  Name : Bytes
  XXX_unrecognized : Bytes
  deriving DecidableEq, Repr

/-- The isCommonExtensionConfig_ConfigType oneof (source lines 74-92): one
wrapper per branch, each holding a possibly-nil pointer to its payload. -/
inductive ConfigType where
  | adminConfig (v : Option AdminConfig)
  | staticConfig (v : Option TapConfig)
  | tapdsConfig (v : Option TapDSConfig)
  deriving DecidableEq, Repr

/-- CommonExtensionConfig (source lines 30-39): the possibly-nil oneof
interface value plus the unrecognized-byte carryover. -/
structure CommonExtensionConfig where
  ConfigType : Option ConfigType
  XXX_unrecognized : Bytes
  deriving DecidableEq, Repr

/-- AdminConfig.Size (source lines 545-559), on a possibly-nil receiver. -/
def AdminConfig.Size : Option AdminConfig → Nat
  | none => 0
  | some m =>
    (if m.ConfigId.length > 0 then
      1 + m.ConfigId.length + sovCommon m.ConfigId.length
    else 0)
    + m.XXX_unrecognized.length

/-- CommonExtensionConfig_TapDSConfig.Size (source lines 525-543), on a
possibly-nil receiver. -/
def TapDSConfig.Size : Option TapDSConfig → Nat
  | none => 0
  | some m =>
    (match m.ConfigSource with
     | some cs => 1 + cs.size + sovCommon cs.size
     | none => 0)
    + (if m.Name.length > 0 then 1 + m.Name.length + sovCommon m.Name.length
       else 0)
    + m.XXX_unrecognized.length

/-- The Size methods of the three oneof wrappers (source lines 489-524);
each guards on its inner pointer being non-nil. -/
def ConfigType.Size : ConfigType → Nat
  | .adminConfig none => 0
  | .adminConfig (some v) =>
    1 + AdminConfig.Size (some v) + sovCommon (AdminConfig.Size (some v))
  | .staticConfig none => 0
  | .staticConfig (some v) => 1 + v.size + sovCommon v.size
  | .tapdsConfig none => 0
  | .tapdsConfig (some v) =>
    1 + TapDSConfig.Size (some v) + sovCommon (TapDSConfig.Size (some v))

/-- CommonExtensionConfig.Size (source lines 474-487), on a possibly-nil
receiver. -/
def CommonExtensionConfig.Size : Option CommonExtensionConfig → Nat
  | none => 0
  | some m =>
    (match m.ConfigType with
     | some ct => ct.Size
     | none => 0)
    + m.XXX_unrecognized.length

/-- AdminConfig.Marshal / MarshalToSizedBuffer (source lines 429-461) as
the byte sequence they produce: the sized buffer is filled back to front,
so the output is the ConfigId field (tag 0x0a, varint length, payload) when
nonempty, followed by the preserved unrecognized bytes. -/
def AdminConfig.Marshal (m : AdminConfig) : Bytes :=
  (if m.ConfigId.length > 0 then
    0x0a :: (putVarint m.ConfigId.length ++ m.ConfigId)
  else [])
  ++ m.XXX_unrecognized

/-- CommonExtensionConfig_TapDSConfig.Marshal / MarshalToSizedBuffer (source
lines 383-427): the ConfigSource field (tag 0x0a) when non-nil, the Name
field (tag 0x12) when nonempty, then the unrecognized bytes. -/
def TapDSConfig.Marshal (m : TapDSConfig) : Bytes :=
  (match m.ConfigSource with
   | some cs => 0x0a :: (putVarint cs.encode.length ++ cs.encode)
   | none => [])
  ++ (if m.Name.length > 0 then 0x12 :: (putVarint m.Name.length ++ m.Name)
      else [])
  ++ m.XXX_unrecognized

/-- The MarshalToSizedBuffer methods of the three oneof wrappers (source
lines 320-382): a branch with a non-nil payload emits its tag byte, the
varint byte count of the nested encoding, then the nested encoding; a nil
payload emits nothing. -/
def ConfigType.encode : ConfigType → Bytes
  | .adminConfig none => []
  | .adminConfig (some v) => 0x0a :: (putVarint v.Marshal.length ++ v.Marshal)
  | .staticConfig none => []
  | .staticConfig (some v) => 0x12 :: (putVarint v.encode.length ++ v.encode)
  | .tapdsConfig none => []
  | .tapdsConfig (some v) => 0x1a :: (putVarint v.Marshal.length ++ v.Marshal)

/-- CommonExtensionConfig.Marshal / MarshalToSizedBuffer (source lines
284-318): the active oneof branch's encoding, then the unrecognized
bytes. -/
def CommonExtensionConfig.Marshal (m : CommonExtensionConfig) : Bytes :=
  (match m.ConfigType with
   | some ct => ct.encode
   | none => [])
  ++ m.XXX_unrecognized

/-- GetConfigType (source lines 94-99). -/
def CommonExtensionConfig.GetConfigType :
    Option CommonExtensionConfig → Option TapCodec.ConfigType
  | some m => m.ConfigType
  | none => none

/-- GetAdminConfig (source lines 101-106): the type assertion on the oneof
interface, returning the inner pointer (possibly nil) on match and nil
otherwise. -/
def CommonExtensionConfig.GetAdminConfig (m : Option CommonExtensionConfig) :
    Option AdminConfig :=
  match CommonExtensionConfig.GetConfigType m with
  | some (.adminConfig v) => v
  | _ => none

/-- GetStaticConfig (source lines 108-113). -/
def CommonExtensionConfig.GetStaticConfig (m : Option CommonExtensionConfig) :
    Option TapConfig :=
  match CommonExtensionConfig.GetConfigType m with
  | some (.staticConfig v) => v
  | _ => none

/-- GetTapdsConfig (source lines 115-120). -/
def CommonExtensionConfig.GetTapdsConfig (m : Option CommonExtensionConfig) :
    Option TapDSConfig :=
  match CommonExtensionConfig.GetConfigType m with
  | some (.tapdsConfig v) => v
  | _ => none

/-- GetConfigSource (source lines 175-180). -/
def TapDSConfig.GetConfigSource :
    Option TapDSConfig → Option TapCodec.ConfigSource
  | some m => m.ConfigSource
  | none => none

/-- GetName (source lines 182-187). -/
def TapDSConfig.GetName : Option TapDSConfig → Bytes
  | some m => m.Name
  | none => []

/-- GetConfigId (source lines 233-238). -/
def AdminConfig.GetConfigId : Option AdminConfig → Bytes
  | some m => m.ConfigId
  | none => []

/-- Setting the low bit: or-ing with 1 fixes bit zero and keeps the rest. -/
theorem lor_one (v : Nat) : v ||| 1 = 2 * (v / 2) + 1 := by
  apply Nat.eq_of_testBit_eq
  intro i
  cases i with
  | zero =>
    rw [Nat.testBit_lor, Nat.testBit_zero, Nat.testBit_zero, Nat.testBit_zero]
    have h : (2 * (v / 2) + 1) % 2 = 1 := by omega
    simp [h]
  | succ j =>
    rw [Nat.testBit_lor, Nat.testBit_succ, Nat.testBit_succ, Nat.testBit_succ]
    have h2 : (2 * (v / 2) + 1) / 2 = v / 2 := by omega
    have h1 : (1 : Nat) / 2 = 0 := by norm_num
    rw [h2, h1, Nat.zero_testBit, Bool.or_false]

/-- Or-ing with 1 does not change the binary logarithm of a positive
number. -/
theorem log_lor_one (v : Nat) (hv : 1 ≤ v) :
    Nat.log 2 (v ||| 1) = Nat.log 2 v := by
  rw [lor_one]
  rcases Nat.even_or_odd v with he | ho
  · have hv1 : 2 * (v / 2) + 1 = v + 1 := by
      obtain ⟨c, hc⟩ := he
      omega
    rw [hv1]
    have hple : 2 ^ Nat.log 2 v ≤ v := Nat.pow_log_le_self 2 (by omega)
    have hplt : v < 2 ^ (Nat.log 2 v + 1) :=
      Nat.lt_pow_succ_log_self (by norm_num) v
    have hodd : (v + 1) % 2 = 1 := by
      obtain ⟨c, hc⟩ := he
      omega
    have heven : 2 ^ (Nat.log 2 v + 1) % 2 = 0 := by
      have h : (2 : Nat) ^ (Nat.log 2 v + 1) = 2 * 2 ^ Nat.log 2 v := by ring
      omega
    exact Nat.log_eq_of_pow_le_of_lt_pow (by omega) (by omega)
  · have hv1 : 2 * (v / 2) + 1 = v := by
      obtain ⟨c, hc⟩ := ho
      omega
    rw [hv1]

/-- Recursion equation for sovCommon above the one-byte range. -/
theorem sovCommon_rec (v : Nat) (hv : 2 ^ 7 ≤ v) :
    sovCommon v = 1 + sovCommon (v >>> 7) := by
  unfold sovCommon
  rw [Nat.log2_eq_log_two, Nat.log2_eq_log_two]
  have hu : 1 ≤ v >>> 7 := by
    rw [Nat.shiftRight_eq_div_pow]
    exact (Nat.one_le_div_iff (by norm_num)).mpr hv
  rw [log_lor_one v (by omega), log_lor_one _ hu]
  have hdiv : v >>> 7 = v / 2 ^ 7 := Nat.shiftRight_eq_div_pow v 7
  have h1 : v / 2 / 2 / 2 / 2 / 2 / 2 / 2 = v / 2 ^ 7 := by
    simp only [Nat.div_div_eq_div_mul]
    norm_num
  have hlog7 : Nat.log 2 (v / 2 ^ 7) = Nat.log 2 v - 7 := by
    rw [← h1, Nat.log_div_base, Nat.log_div_base, Nat.log_div_base,
      Nat.log_div_base, Nat.log_div_base, Nat.log_div_base, Nat.log_div_base]
    omega
  have hge : 7 ≤ Nat.log 2 v :=
    (Nat.pow_le_iff_le_log (by norm_num) (by omega)).mp hv
  rw [hdiv, hlog7]
  omega

/-- sovCommon is 1 on the one-byte range. -/
theorem sovCommon_small (v : Nat) (hv : v < 2 ^ 7) : sovCommon v = 1 := by
  unfold sovCommon
  rw [Nat.log2_eq_log_two]
  have h1 : v ||| 1 = 2 * (v / 2) + 1 := lor_one v
  have hlt : v ||| 1 < 2 ^ 7 := by
    rw [h1]
    omega
  have hne : v ||| 1 ≠ 0 := by
    rw [h1]
    omega
  have := Nat.log_lt_of_lt_pow hne hlt
  omega

/-- Length of the varint encoding: putVarint produces exactly sovCommon
bytes, the agreement between encodeVarintCommon and sovCommon that the
sized-buffer protocol relies on. -/
theorem putVarint_length (v : Nat) : (putVarint v).length = sovCommon v := by
  induction v using Nat.strong_induction_on with
  | _ v ih =>
    rw [putVarint]
    by_cases h : v ≥ 2 ^ 7
    · have hlt : v >>> 7 < v := by
        rw [Nat.shiftRight_eq_div_pow]
        exact Nat.div_lt_self (by omega) (by norm_num)
      rw [dif_pos h, List.length_cons, ih (v >>> 7) hlt, sovCommon_rec v h]
      omega
    · rw [dif_neg h, List.length_singleton, sovCommon_small v (by omega)]

/-- The AdminConfig encoding is exactly Size bytes long. -/
theorem adminConfig_marshal_size (m : AdminConfig) :
    m.Marshal.length = AdminConfig.Size (some m) := by
  unfold AdminConfig.Marshal AdminConfig.Size
  by_cases h : m.ConfigId.length > 0
  · simp only [h, if_pos, List.length_append, List.length_cons,
      putVarint_length]
    omega
  · simp [h]

/-- The TapDSConfig encoding is exactly Size bytes long. -/
theorem tapDSConfig_marshal_size (m : TapDSConfig) :
    m.Marshal.length = TapDSConfig.Size (some m) := by
  unfold TapDSConfig.Marshal TapDSConfig.Size
  cases hcs : m.ConfigSource with
  | none =>
    by_cases h : m.Name.length > 0 <;>
      simp [hcs, h, putVarint_length] <;> omega
  | some cs =>
    by_cases h : m.Name.length > 0 <;>
      simp [hcs, h, putVarint_length, ConfigSource.encode, ConfigSource.size] <;>
      omega

/-- Each oneof wrapper's encoding is exactly its Size bytes long. -/
theorem configType_encode_size (ct : ConfigType) :
    ct.encode.length = ct.Size := by
  cases ct with
  | adminConfig v =>
    cases v with
    | none => rfl
    | some a =>
      simp only [ConfigType.encode, ConfigType.Size, List.length_cons,
        List.length_append, putVarint_length, adminConfig_marshal_size]
      omega
  | staticConfig v =>
    cases v with
    | none => rfl
    | some t =>
      simp only [ConfigType.encode, ConfigType.Size, List.length_cons,
        List.length_append, putVarint_length, TapConfig.encode,
        TapConfig.size]
      omega
  | tapdsConfig v =>
    cases v with
    | none => rfl
    | some t =>
      simp only [ConfigType.encode, ConfigType.Size, List.length_cons,
        List.length_append, putVarint_length, tapDSConfig_marshal_size]
      omega

/-- The CommonExtensionConfig encoding is exactly Size bytes long. -/
theorem commonExtensionConfig_marshal_size (m : CommonExtensionConfig) :
    m.Marshal.length = CommonExtensionConfig.Size (some m) := by
  unfold CommonExtensionConfig.Marshal CommonExtensionConfig.Size
  cases h : m.ConfigType with
  | none => simp [h]
  | some ct => simp [h, configType_encode_size]

/-- A successful varint read consumes at least one byte. -/
theorem readVarint_consumed (data : Bytes) (shift acc v k : Nat)
    (h : readVarint data shift acc = .ok (v, k)) : 1 ≤ k := by
  rw [readVarint.eq_def] at h
  split at h
  · simp at h
  · split at h
    · simp at h
    · split at h
      · simp only [Except.ok.injEq, Prod.mk.injEq] at h
        omega
      · split at h
        · simp at h
        · simp only [Except.ok.injEq, Prod.mk.injEq] at h
          omega

/-- One iteration of skipCommon's loop body (source lines 938-1002): read a
tag varint at position i, dispatch on its wire type, and return the updated
position and group depth.  A length varint with bit 63 set is Go's negative
int (the source test length < 0); position sums reaching 2 ^ 63 are Go's
wrapped-negative iNdEx and are checked by the loop. -/
def skipStep (dAtA : Bytes) (i depth : Nat) : Except PErr (Nat × Nat) :=
  match readVarint (dAtA.drop i) 0 0 with
  | .error e => .error e
  | .ok (wire, k) =>
    match wire &&& 7 with
    | 0 =>
      match readVarint (dAtA.drop (i + k)) 0 0 with
      | .error e => .error e
      | .ok (_, k2) => .ok (i + k + k2, depth)
    | 1 => .ok (i + k + 8, depth)
    | 2 =>
      match readVarint (dAtA.drop (i + k)) 0 0 with
      | .error e => .error e
      | .ok (v, k2) =>
        if 2 ^ 63 ≤ v then .error .invalidLength
        else .ok (i + k + k2 + v, depth)
    | 3 => .ok (i + k, depth + 1)
    | 4 => if depth = 0 then .error .endOfGroup else .ok (i + k, depth - 1)
    | 5 => .ok (i + k + 4, depth)
    | _ => .error .illegalWireType

/-- A successful skip iteration strictly advances the position. -/
theorem skipStep_advance (dAtA : Bytes) (i depth i2 depth2 : Nat)
    (h : skipStep dAtA i depth = .ok (i2, depth2)) : i < i2 := by
  rw [skipStep] at h
  split at h
  · simp at h
  · rename_i wire k hw
    have hk := readVarint_consumed _ _ _ _ _ hw
    split at h
    · split at h
      · simp at h
      · rename_i k2 hw2
        have := readVarint_consumed _ _ _ _ _ hw2
        simp only [Except.ok.injEq, Prod.mk.injEq] at h
        omega
    · simp only [Except.ok.injEq, Prod.mk.injEq] at h
      omega
    · split at h
      · simp at h
      · rename_i v k2 hw2
        split at h
        · simp at h
        · simp only [Except.ok.injEq, Prod.mk.injEq] at h
          omega
    · simp only [Except.ok.injEq, Prod.mk.injEq] at h
      omega
    · split at h
      · simp at h
      · simp only [Except.ok.injEq, Prod.mk.injEq] at h
        omega
    · simp only [Except.ok.injEq, Prod.mk.injEq] at h
      omega
    · simp at h

/-- The skipCommon loop (source lines 938-1009): iterate the body while the
position is inside the buffer; a wrapped-negative position (2 ^ 63 ≤ i2,
Go's iNdEx < 0) aborts, the first return to depth 0 yields the consumed
byte count, and running off the end mid-group is io.ErrUnexpectedEOF. -/
def skipLoop (dAtA : Bytes) (i depth : Nat) : Except PErr Nat :=
  if h : i < dAtA.length then
    match hs : skipStep dAtA i depth with
    | .error e => .error e
    | .ok (i2, depth2) =>
      if 2 ^ 63 ≤ i2 then .error .invalidLength
      else if depth2 = 0 then .ok i2
      else skipLoop dAtA i2 depth2
  else .error .unexpectedEOF
termination_by dAtA.length - i
decreasing_by
  have := skipStep_advance dAtA i depth i2 depth2 hs
  omega

/-- skipCommon (source lines 934-1011), on the suffix slice the callers
pass. -/
def skipCommon (dAtA : Bytes) : Except PErr Nat := skipLoop dAtA 0 0

/-- Unfolding: skipLoop past the end of the buffer. -/
theorem skipLoop_exit (dAtA : Bytes) (i depth : Nat) (hge : ¬ i < dAtA.length) :
    skipLoop dAtA i depth = .error .unexpectedEOF := by
  rw [skipLoop.eq_def]
  simp [hge]

/-- Unfolding: skipLoop propagates a failing iteration. -/
theorem skipLoop_err (dAtA : Bytes) (i depth : Nat) (e : PErr)
    (hlt : i < dAtA.length) (hstep : skipStep dAtA i depth = .error e) :
    skipLoop dAtA i depth = .error e := by
  rw [skipLoop.eq_def, dif_pos hlt]
  split
  · rename_i e2 hs2
    rw [hstep] at hs2
    simp at hs2
    rw [hs2]
  · rename_i i2 depth2 hs2
    rw [hstep] at hs2
    simp at hs2

/-- Unfolding: skipLoop after a successful iteration. -/
theorem skipLoop_step (dAtA : Bytes) (i depth i2 depth2 : Nat)
    (hlt : i < dAtA.length) (hstep : skipStep dAtA i depth = .ok (i2, depth2)) :
    skipLoop dAtA i depth =
      (if 2 ^ 63 ≤ i2 then .error .invalidLength
       else if depth2 = 0 then .ok i2
       else skipLoop dAtA i2 depth2) := by
  rw [skipLoop.eq_def, dif_pos hlt]
  split
  · rename_i e2 hs2
    rw [hstep] at hs2
    simp at hs2
  · rename_i j2 d2 hs2
    rw [hstep] at hs2
    simp only [Except.ok.injEq, Prod.mk.injEq] at hs2
    rw [hs2.1, hs2.2]

/-- A successful skip run strictly advances the position and stays below
2 ^ 63; stated with explicit fuel for the induction. -/
theorem skipLoop_gt_fuel (dAtA : Bytes) : ∀ (fuel i depth n : Nat),
    dAtA.length - i < fuel → skipLoop dAtA i depth = .ok n →
    i < n ∧ n < 2 ^ 63 := by
  intro fuel
  induction fuel with
  | zero =>
    intro i depth n hf h
    omega
  | succ f ih =>
    intro i depth n hf h
    by_cases hlt : i < dAtA.length
    · cases hstep : skipStep dAtA i depth with
      | error e =>
        rw [skipLoop_err dAtA i depth e hlt hstep] at h
        simp at h
      | ok p =>
        obtain ⟨i2, depth2⟩ := p
        rw [skipLoop_step dAtA i depth i2 depth2 hlt hstep] at h
        have hadv := skipStep_advance dAtA i depth i2 depth2 hstep
        by_cases hbig : 2 ^ 63 ≤ i2
        · rw [if_pos hbig] at h
          simp at h
        · rw [if_neg hbig] at h
          by_cases hdep : depth2 = 0
          · rw [if_pos hdep] at h
            simp only [Except.ok.injEq] at h
            omega
          · rw [if_neg hdep] at h
            have := ih i2 depth2 n (by omega) h
            omega
    · rw [skipLoop_exit dAtA i depth hlt] at h
      simp at h

/-- A successful skip run strictly advances the position and stays below
2 ^ 63. -/
theorem skipLoop_gt (dAtA : Bytes) (i depth n : Nat)
    (h : skipLoop dAtA i depth = .ok n) : i < n ∧ n < 2 ^ 63 :=
  skipLoop_gt_fuel dAtA (dAtA.length - i + 1) i depth n (by omega) h

/-- A successful skipCommon consumes at least one byte and fewer than
2 ^ 63. -/
theorem skipCommon_pos (dAtA : Bytes) (n : Nat)
    (h : skipCommon dAtA = .ok n) : 1 ≤ n ∧ n < 2 ^ 63 := by
  have := skipLoop_gt dAtA 0 0 n h
  omega

/-- The shared body of every known, length-delimited field case of the
three Unmarshal functions (e.g. source lines 600-630): read the msglen
varint after the k-byte tag, reject Go-negative lengths (bit 63 set, the
source test msglen < 0) and wrapped-negative postIndex values (the source
test postIndex < 0), require the field to lie inside the buffer, and
return the end position together with the payload slice
dAtA[iNdEx:postIndex]. -/
def ldField (dAtA : Bytes) (i k : Nat) : Except PErr (Nat × Bytes) :=
  match readVarint (dAtA.drop (i + k)) 0 0 with
  | .error e => .error e
  | .ok (v, k2) =>
    if 2 ^ 63 ≤ v then .error .invalidLength
    else if 2 ^ 63 ≤ i + k + k2 + v then .error .invalidLength
    else if i + k + k2 + v > dAtA.length then .error .unexpectedEOF
    else .ok (i + k + k2 + v, (dAtA.drop (i + k + k2)).take v)

/-- Bounds of a successful length-delimited field read. -/
theorem ldField_bounds (dAtA : Bytes) (i k post : Nat) (sl : Bytes)
    (h : ldField dAtA i k = .ok (post, sl)) :
    i + k < post ∧ post ≤ dAtA.length ∧ post < 2 ^ 63 := by
  rw [ldField] at h
  split at h
  · simp at h
  · rename_i v k2 hw
    have := readVarint_consumed _ _ _ _ _ hw
    split at h
    · simp at h
    · split at h
      · simp at h
      · split at h
        · simp at h
        · simp only [Except.ok.injEq, Prod.mk.injEq] at h
          omega

/-- The default (unknown field) case of the three Unmarshal functions
(source lines 701-717): skip the whole field from its tag, guard against
wrapped-negative positions, and return the end position together with the
raw chunk dAtA[iNdEx : iNdEx+skippy].  skipCommon only returns nonnegative
counts, so the source's skippy < 0 test cannot fire and is omitted. -/
def unknownField (dAtA : Bytes) (i : Nat) : Except PErr (Nat × Bytes) :=
  match skipCommon (dAtA.drop i) with
  | .error e => .error e
  | .ok skippy =>
    if 2 ^ 63 ≤ i + skippy then .error .invalidLength
    else if i + skippy > dAtA.length then .error .unexpectedEOF
    else .ok (i + skippy, (dAtA.drop i).take skippy)

/-- Bounds of a successful unknown-field skip. -/
theorem unknownField_bounds (dAtA : Bytes) (i post : Nat) (raw : Bytes)
    (h : unknownField dAtA i = .ok (post, raw)) :
    i < post ∧ post ≤ dAtA.length ∧ post < 2 ^ 63 := by
  rw [unknownField] at h
  split at h
  · simp at h
  · rename_i skippy hsk
    have := skipCommon_pos _ _ hsk
    split at h
    · simp at h
    · split at h
      · simp at h
      · simp only [Except.ok.injEq, Prod.mk.injEq] at h
        omega

/-- One iteration of AdminConfig.Unmarshal's loop body (source lines
851-926). -/
def acStep (dAtA : Bytes) (i : Nat) (m : AdminConfig) :
    Except PErr (Nat × AdminConfig) :=
  match readVarint (dAtA.drop i) 0 0 with
  | .error e => .error e
  | .ok (wire, k) =>
    if wire &&& 7 = 4 then .error .endGroupForNonGroup
    else if toSigned32 (wire >>> 3) ≤ 0 then .error .illegalTag
    else if toSigned32 (wire >>> 3) = 1 then
      if wire &&& 7 ≠ 2 then .error .wrongWireType
      else
        match ldField dAtA i k with
        | .error e => .error e
        | .ok (post, sl) => .ok (post, { m with ConfigId := sl })
    else
      match unknownField dAtA i with
      | .error e => .error e
      | .ok (post, raw) =>
        .ok (post, { m with XXX_unrecognized := m.XXX_unrecognized ++ raw })

/-- A successful AdminConfig loop iteration strictly advances inside the
buffer. -/
theorem acStep_advance (dAtA : Bytes) (i : Nat) (m : AdminConfig)
    (i2 : Nat) (m2 : AdminConfig) (h : acStep dAtA i m = .ok (i2, m2)) :
    i < i2 ∧ i2 ≤ dAtA.length := by
  rw [acStep] at h
  split at h
  · simp at h
  · rename_i wire k hw
    have hk := readVarint_consumed _ _ _ _ _ hw
    split at h
    · simp at h
    · split at h
      · simp at h
      · split at h
        · split at h
          · simp at h
          · split at h
            · simp at h
            · rename_i post sl hld
              have := ldField_bounds _ _ _ _ _ hld
              simp only [Except.ok.injEq, Prod.mk.injEq] at h
              omega
        · split at h
          · simp at h
          · rename_i post raw hun
            have := unknownField_bounds _ _ _ _ hun
            simp only [Except.ok.injEq, Prod.mk.injEq] at h
            omega

/-- The Unmarshal loop of AdminConfig (source lines 848-932): iterate the
body while iNdEx < l; the final overrun test (iNdEx > l, source line 929)
is kept for fidelity although no iteration can overshoot. -/
def acLoop (dAtA : Bytes) (i : Nat) (m : AdminConfig) :
    Except PErr AdminConfig :=
  if h : i < dAtA.length then
    match hs : acStep dAtA i m with
    | .error e => .error e
    | .ok (i2, m2) => acLoop dAtA i2 m2
  else if i > dAtA.length then .error .unexpectedEOF
  else .ok m
termination_by dAtA.length - i
decreasing_by
  have := acStep_advance dAtA i m i2 m2 hs
  omega

/-- AdminConfig.Unmarshal (source lines 848-933) on a fresh receiver. -/
def AdminConfig.Unmarshal (dAtA : Bytes) : Except PErr AdminConfig :=
  acLoop dAtA 0 ⟨[], []⟩

/-- One iteration of CommonExtensionConfig_TapDSConfig.Unmarshal's loop
body (source lines 729-840).  Field 1 merges into the existing
ConfigSource, allocating a fresh one when nil (source lines 784-789);
field 2 overwrites Name. -/
def tdsStep (dAtA : Bytes) (i : Nat) (m : TapDSConfig) :
    Except PErr (Nat × TapDSConfig) :=
  match readVarint (dAtA.drop i) 0 0 with
  | .error e => .error e
  | .ok (wire, k) =>
    if wire &&& 7 = 4 then .error .endGroupForNonGroup
    else if toSigned32 (wire >>> 3) ≤ 0 then .error .illegalTag
    else if toSigned32 (wire >>> 3) = 1 then
      if wire &&& 7 ≠ 2 then .error .wrongWireType
      else
        match ldField dAtA i k with
        | .error e => .error e
        | .ok (post, sl) =>
          .ok (post,
            { m with
              ConfigSource := some ((m.ConfigSource.getD ⟨[]⟩).unmarshal sl) })
    else if toSigned32 (wire >>> 3) = 2 then
      if wire &&& 7 ≠ 2 then .error .wrongWireType
      else
        match ldField dAtA i k with
        | .error e => .error e
        | .ok (post, sl) => .ok (post, { m with Name := sl })
    else
      match unknownField dAtA i with
      | .error e => .error e
      | .ok (post, raw) =>
        .ok (post, { m with XXX_unrecognized := m.XXX_unrecognized ++ raw })

/-- A successful TapDSConfig loop iteration strictly advances inside the
buffer. -/
theorem tdsStep_advance (dAtA : Bytes) (i : Nat) (m : TapDSConfig)
    (i2 : Nat) (m2 : TapDSConfig) (h : tdsStep dAtA i m = .ok (i2, m2)) :
    i < i2 ∧ i2 ≤ dAtA.length := by
  rw [tdsStep] at h
  split at h
  · simp at h
  · rename_i wire k hw
    have hk := readVarint_consumed _ _ _ _ _ hw
    split at h
    · simp at h
    · split at h
      · simp at h
      · split at h
        · split at h
          · simp at h
          · split at h
            · simp at h
            · rename_i post sl hld
              have := ldField_bounds _ _ _ _ _ hld
              simp only [Except.ok.injEq, Prod.mk.injEq] at h
              omega
        · split at h
          · split at h
            · simp at h
            · split at h
              · simp at h
              · rename_i post sl hld
                have := ldField_bounds _ _ _ _ _ hld
                simp only [Except.ok.injEq, Prod.mk.injEq] at h
                omega
          · split at h
            · simp at h
            · rename_i post raw hun
              have := unknownField_bounds _ _ _ _ hun
              simp only [Except.ok.injEq, Prod.mk.injEq] at h
              omega

/-- The Unmarshal loop of CommonExtensionConfig_TapDSConfig (source lines
726-846). -/
def tdsLoop (dAtA : Bytes) (i : Nat) (m : TapDSConfig) :
    Except PErr TapDSConfig :=
  if h : i < dAtA.length then
    match hs : tdsStep dAtA i m with
    | .error e => .error e
    | .ok (i2, m2) => tdsLoop dAtA i2 m2
  else if i > dAtA.length then .error .unexpectedEOF
  else .ok m
termination_by dAtA.length - i
decreasing_by
  have := tdsStep_advance dAtA i m i2 m2 hs
  omega

/-- CommonExtensionConfig_TapDSConfig.Unmarshal (source lines 726-847) on a
fresh receiver. -/
def TapDSConfig.Unmarshal (dAtA : Bytes) : Except PErr TapDSConfig :=
  tdsLoop dAtA 0 ⟨none, [], []⟩

/-- One iteration of CommonExtensionConfig.Unmarshal's loop body (source
lines 570-718).  Each known field decodes its payload into a fresh value
and installs it as the sole active oneof variant, overwriting whatever was
there (source lines 629, 664, 699). -/
def cecStep (dAtA : Bytes) (i : Nat) (m : CommonExtensionConfig) :
    Except PErr (Nat × CommonExtensionConfig) :=
  match readVarint (dAtA.drop i) 0 0 with
  | .error e => .error e
  | .ok (wire, k) =>
    if wire &&& 7 = 4 then .error .endGroupForNonGroup
    else if toSigned32 (wire >>> 3) ≤ 0 then .error .illegalTag
    else if toSigned32 (wire >>> 3) = 1 then
      if wire &&& 7 ≠ 2 then .error .wrongWireType
      else
        match ldField dAtA i k with
        | .error e => .error e
        | .ok (post, sl) =>
          match AdminConfig.Unmarshal sl with
          | .error e => .error e
          | .ok a =>
            .ok (post, { m with ConfigType := some (.adminConfig (some a)) })
    else if toSigned32 (wire >>> 3) = 2 then
      if wire &&& 7 ≠ 2 then .error .wrongWireType
      else
        match ldField dAtA i k with
        | .error e => .error e
        | .ok (post, sl) =>
          .ok (post,
            { m with
              ConfigType := some (.staticConfig (some (TapConfig.unmarshal ⟨[]⟩ sl))) })
    else if toSigned32 (wire >>> 3) = 3 then
      if wire &&& 7 ≠ 2 then .error .wrongWireType
      else
        match ldField dAtA i k with
        | .error e => .error e
        | .ok (post, sl) =>
          match TapDSConfig.Unmarshal sl with
          | .error e => .error e
          | .ok t =>
            .ok (post, { m with ConfigType := some (.tapdsConfig (some t)) })
    else
      match unknownField dAtA i with
      | .error e => .error e
      | .ok (post, raw) =>
        .ok (post, { m with XXX_unrecognized := m.XXX_unrecognized ++ raw })

/-- A successful CommonExtensionConfig loop iteration strictly advances
inside the buffer. -/
theorem cecStep_advance (dAtA : Bytes) (i : Nat) (m : CommonExtensionConfig)
    (i2 : Nat) (m2 : CommonExtensionConfig)
    (h : cecStep dAtA i m = .ok (i2, m2)) :
    i < i2 ∧ i2 ≤ dAtA.length := by
  rw [cecStep] at h
  split at h
  · simp at h
  · rename_i wire k hw
    have hk := readVarint_consumed _ _ _ _ _ hw
    split at h
    · simp at h
    · split at h
      · simp at h
      · split at h
        · split at h
          · simp at h
          · split at h
            · simp at h
            · rename_i post sl hld
              have := ldField_bounds _ _ _ _ _ hld
              split at h
              · simp at h
              · simp only [Except.ok.injEq, Prod.mk.injEq] at h
                omega
        · split at h
          · split at h
            · simp at h
            · split at h
              · simp at h
              · rename_i post sl hld
                have := ldField_bounds _ _ _ _ _ hld
                simp only [Except.ok.injEq, Prod.mk.injEq] at h
                omega
          · split at h
            · split at h
              · simp at h
              · split at h
                · simp at h
                · rename_i post sl hld
                  have := ldField_bounds _ _ _ _ _ hld
                  split at h
                  · simp at h
                  · simp only [Except.ok.injEq, Prod.mk.injEq] at h
                    omega
            · split at h
              · simp at h
              · rename_i post raw hun
                have := unknownField_bounds _ _ _ _ hun
                simp only [Except.ok.injEq, Prod.mk.injEq] at h
                omega

/-- The Unmarshal loop of CommonExtensionConfig (source lines 567-724). -/
def cecLoop (dAtA : Bytes) (i : Nat) (m : CommonExtensionConfig) :
    Except PErr CommonExtensionConfig :=
  if h : i < dAtA.length then
    match hs : cecStep dAtA i m with
    | .error e => .error e
    | .ok (i2, m2) => cecLoop dAtA i2 m2
  else if i > dAtA.length then .error .unexpectedEOF
  else .ok m
termination_by dAtA.length - i
decreasing_by
  have := cecStep_advance dAtA i m i2 m2 hs
  omega

/-- CommonExtensionConfig.Unmarshal (source lines 567-725) on a fresh
receiver. -/
def CommonExtensionConfig.Unmarshal (dAtA : Bytes) :
    Except PErr CommonExtensionConfig :=
  cecLoop dAtA 0 ⟨none, []⟩

/-- Unfolding: acLoop at or past the end of the buffer. -/
theorem acLoop_exit (dAtA : Bytes) (i : Nat) (m : AdminConfig)
    (hge : ¬ i < dAtA.length) :
    acLoop dAtA i m =
      (if i > dAtA.length then .error .unexpectedEOF else .ok m) := by
  rw [acLoop.eq_def]
  rw [dif_neg hge]

/-- Unfolding: acLoop propagates a failing iteration. -/
theorem acLoop_err (dAtA : Bytes) (i : Nat) (m : AdminConfig) (e : PErr)
    (hlt : i < dAtA.length) (hstep : acStep dAtA i m = .error e) :
    acLoop dAtA i m = .error e := by
  rw [acLoop.eq_def, dif_pos hlt]
  split
  · rename_i e2 hs2
    rw [hstep] at hs2
    simp at hs2
    rw [hs2]
  · rename_i i2 m2 hs2
    rw [hstep] at hs2
    simp at hs2

/-- Unfolding: acLoop after a successful iteration. -/
theorem acLoop_step (dAtA : Bytes) (i : Nat) (m : AdminConfig)
    (i2 : Nat) (m2 : AdminConfig)
    (hlt : i < dAtA.length) (hstep : acStep dAtA i m = .ok (i2, m2)) :
    acLoop dAtA i m = acLoop dAtA i2 m2 := by
  rw [acLoop.eq_def, dif_pos hlt]
  split
  · rename_i e2 hs2
    rw [hstep] at hs2
    simp at hs2
  · rename_i j2 d2 hs2
    rw [hstep] at hs2
    simp only [Except.ok.injEq, Prod.mk.injEq] at hs2
    rw [hs2.1, hs2.2]

/-- Unfolding: tdsLoop at or past the end of the buffer. -/
theorem tdsLoop_exit (dAtA : Bytes) (i : Nat) (m : TapDSConfig)
    (hge : ¬ i < dAtA.length) :
    tdsLoop dAtA i m =
      (if i > dAtA.length then .error .unexpectedEOF else .ok m) := by
  rw [tdsLoop.eq_def]
  rw [dif_neg hge]

/-- Unfolding: tdsLoop propagates a failing iteration. -/
theorem tdsLoop_err (dAtA : Bytes) (i : Nat) (m : TapDSConfig) (e : PErr)
    (hlt : i < dAtA.length) (hstep : tdsStep dAtA i m = .error e) :
    tdsLoop dAtA i m = .error e := by
  rw [tdsLoop.eq_def, dif_pos hlt]
  split
  · rename_i e2 hs2
    rw [hstep] at hs2
    simp at hs2
    rw [hs2]
  · rename_i i2 m2 hs2
    rw [hstep] at hs2
    simp at hs2

/-- Unfolding: tdsLoop after a successful iteration. -/
theorem tdsLoop_step (dAtA : Bytes) (i : Nat) (m : TapDSConfig)
    (i2 : Nat) (m2 : TapDSConfig)
    (hlt : i < dAtA.length) (hstep : tdsStep dAtA i m = .ok (i2, m2)) :
    tdsLoop dAtA i m = tdsLoop dAtA i2 m2 := by
  rw [tdsLoop.eq_def, dif_pos hlt]
  split
  · rename_i e2 hs2
    rw [hstep] at hs2
    simp at hs2
  · rename_i j2 d2 hs2
    rw [hstep] at hs2
    simp only [Except.ok.injEq, Prod.mk.injEq] at hs2
    rw [hs2.1, hs2.2]

/-- Unfolding: cecLoop at or past the end of the buffer. -/
theorem cecLoop_exit (dAtA : Bytes) (i : Nat) (m : CommonExtensionConfig)
    (hge : ¬ i < dAtA.length) :
    cecLoop dAtA i m =
      (if i > dAtA.length then .error .unexpectedEOF else .ok m) := by
  rw [cecLoop.eq_def]
  rw [dif_neg hge]

/-- Unfolding: cecLoop propagates a failing iteration. -/
theorem cecLoop_err (dAtA : Bytes) (i : Nat) (m : CommonExtensionConfig)
    (e : PErr)
    (hlt : i < dAtA.length) (hstep : cecStep dAtA i m = .error e) :
    cecLoop dAtA i m = .error e := by
  rw [cecLoop.eq_def, dif_pos hlt]
  split
  · rename_i e2 hs2
    rw [hstep] at hs2
    simp at hs2
    rw [hs2]
  · rename_i i2 m2 hs2
    rw [hstep] at hs2
    simp at hs2

/-- Disjoint or is addition: with the low bits below the shift, or-ing a
shifted value adds it. -/
theorem lor_shiftLeft_eq_add (a b s : Nat) (ha : a < 2 ^ s) :
    a ||| b <<< s = a + b <<< s := by
  calc a ||| b <<< s = 2 ^ s * b ||| a := by
        rw [Nat.shiftLeft_eq, Nat.mul_comm b (2 ^ s), Nat.lor_comm]
    _ = 2 ^ s * b + a := (Nat.mul_add_lt_is_or ha b).symm
    _ = a + b <<< s := by
        rw [Nat.shiftLeft_eq, Nat.mul_comm b (2 ^ s)]
        exact Nat.add_comm _ _

/-- The low 7 bits of a byte. -/
theorem lowBits_eq (b : Nat) : b &&& 0x7F = b % 128 := by
  have h : (0x7F : Nat) = 2 ^ 7 - 1 := by norm_num
  rw [h, Nat.and_pow_two_sub_one_eq_mod]

/-- The continuation byte written by encodeVarintCommon. -/
theorem contByte_eq (v : Nat) : v &&& 0x7F ||| 0x80 = v % 128 + 128 := by
  rw [lowBits_eq, Nat.lor_comm]
  have h3 : 2 ^ 7 * 1 + v % 128 = 2 ^ 7 * 1 ||| v % 128 :=
    Nat.mul_add_lt_is_or (by omega) 1
  have h4 : (128 : Nat) + v % 128 = 128 ||| v % 128 := by
    simpa using h3
  rw [← h4]
  omega

/-- Reading back a putVarint encoding from any shift position recovers the
encoded value. -/
theorem readVarint_putVarint : ∀ (v : Nat) (rest : Bytes) (shift acc : Nat),
    shift ≤ 63 → v < 2 ^ (64 - shift) → acc < 2 ^ shift →
    readVarint (putVarint v ++ rest) shift acc =
      .ok (acc + v <<< shift, (putVarint v).length) := by
  intro v
  induction v using Nat.strong_induction_on with
  | _ v ih =>
    intro rest shift acc hshift hv hacc
    rw [putVarint]
    by_cases h : v ≥ 2 ^ 7
    · have hshift7 : shift + 7 ≤ 63 := by
        by_contra hc
        have h64 : 64 - shift ≤ 7 := by omega
        have : (2 : Nat) ^ (64 - shift) ≤ 2 ^ 7 :=
          Nat.pow_le_pow_right (by norm_num) h64
        omega
      rw [dif_pos h, List.cons_append, readVarint.eq_def]
      have hb : ¬ (v &&& 0x7F ||| 0x80) < 0x80 := by
        rw [contByte_eq]
        omega
      have hlow : (v &&& 0x7F ||| 0x80) &&& 0x7F = v % 128 := by
        rw [contByte_eq, lowBits_eq]
        omega
      have hsmall : (v % 128) <<< shift < 2 ^ 64 := by
        rw [Nat.shiftLeft_eq]
        have e2 : v % 128 < 2 ^ 7 := by omega
        have step1 : (v % 128) * 2 ^ shift < 2 ^ 7 * 2 ^ shift :=
          (Nat.mul_lt_mul_right (Nat.two_pow_pos shift)).mpr e2
        have step2 : (2 : Nat) ^ 7 * 2 ^ shift = 2 ^ (7 + shift) :=
          (pow_add 2 7 shift).symm
        have step3 : (2 : Nat) ^ (7 + shift) ≤ 2 ^ 64 :=
          Nat.pow_le_pow_right (by norm_num) (by omega)
        omega
      have hacc2 : acc ||| ((v &&& 0x7F ||| 0x80) &&& 0x7F) <<< shift % 2 ^ 64
          = acc + (v % 128) <<< shift := by
        rw [hlow, Nat.mod_eq_of_lt hsmall, lor_shiftLeft_eq_add _ _ _ hacc]
      have hacc2lt : acc + (v % 128) <<< shift < 2 ^ (shift + 7) := by
        rw [Nat.shiftLeft_eq, pow_add]
        have e2 : v % 128 + 1 ≤ 2 ^ 7 := by omega
        calc acc + (v % 128) * 2 ^ shift
            < 2 ^ shift + (v % 128) * 2 ^ shift := by omega
          _ = (v % 128 + 1) * 2 ^ shift := by ring
          _ ≤ 2 ^ 7 * 2 ^ shift := Nat.mul_le_mul_right _ e2
          _ = 2 ^ shift * 2 ^ 7 := by ring
      have hvrec : v >>> 7 < 2 ^ (64 - (shift + 7)) := by
        rw [Nat.shiftRight_eq_div_pow]
        rw [Nat.div_lt_iff_lt_mul (Nat.pos_pow_of_pos 7 (by norm_num))]
        calc v < 2 ^ (64 - shift) := hv
          _ = 2 ^ (64 - (shift + 7)) * 2 ^ 7 := by
            rw [← pow_add]
            congr 1
            omega
      have hrec := ih (v >>> 7)
        (by
          rw [Nat.shiftRight_eq_div_pow]
          exact Nat.div_lt_self (by omega) (by norm_num))
        rest (shift + 7) (acc + (v % 128) <<< shift) hshift7 hvrec hacc2lt
      simp only [ge_iff_le, hb, if_false]
      rw [if_neg (by omega : ¬ 64 ≤ shift)]
      simp only [hacc2]
      rw [hrec]
      simp only [Except.ok.injEq, Prod.mk.injEq, List.length_cons]
      constructor
      · rw [Nat.shiftLeft_eq, Nat.shiftLeft_eq, Nat.shiftLeft_eq,
          Nat.shiftRight_eq_div_pow]
        have e3 : (2 : Nat) ^ (shift + 7) = 2 ^ shift * 2 ^ 7 := pow_add 2 shift 7
        have e4 : v % 128 + 128 * (v / 2 ^ 7) = v := by
          have : (2 : Nat) ^ 7 = 128 := by norm_num
          rw [this]
          omega
        calc acc + (v % 128) * 2 ^ shift + v / 2 ^ 7 * 2 ^ (shift + 7)
            = acc + (v % 128 + 128 * (v / 2 ^ 7)) * 2 ^ shift := by
              rw [e3]
              ring
          _ = acc + v * 2 ^ shift := by rw [e4]
      · trivial
    · rw [dif_neg h, List.singleton_append, readVarint.eq_def]
      have hb : v < 0x80 := by omega
      rw [if_neg (by omega : ¬ 64 ≤ shift)]
      simp only [hb, if_true, lowBits_eq]
      have h1 : v % 128 = v := Nat.mod_eq_of_lt (by omega)
      have hsmall : v <<< shift < 2 ^ 64 := by
        rw [Nat.shiftLeft_eq]
        have step1 : v * 2 ^ shift < 2 ^ (64 - shift) * 2 ^ shift :=
          (Nat.mul_lt_mul_right (Nat.two_pow_pos shift)).mpr hv
        have step2 : (2 : Nat) ^ (64 - shift) * 2 ^ shift = 2 ^ 64 := by
          rw [← pow_add]
          congr 1
          omega
        omega
      rw [h1, Nat.mod_eq_of_lt hsmall, lor_shiftLeft_eq_add _ _ _ hacc]
      simp

/-- A single terminator byte reads back as itself. -/
theorem readVarint_single (b : Nat) (rest : Bytes) (hb : b < 0x80) :
    readVarint (b :: rest) 0 0 = .ok (b, 1) := by
  have h := readVarint_putVarint b rest 0 0 (by omega)
    (Nat.lt_of_lt_of_le hb (by norm_num)) (by omega)
  rw [putVarint, dif_neg (by omega : ¬ b ≥ 2 ^ 7)] at h
  simpa using h

/-- Unfolding: cecLoop after a successful iteration. -/
theorem cecLoop_step (dAtA : Bytes) (i : Nat) (m : CommonExtensionConfig)
    (i2 : Nat) (m2 : CommonExtensionConfig)
    (hlt : i < dAtA.length) (hstep : cecStep dAtA i m = .ok (i2, m2)) :
    cecLoop dAtA i m = cecLoop dAtA i2 m2 := by
  rw [cecLoop.eq_def, dif_pos hlt]
  split
  · rename_i e2 hs2
    rw [hstep] at hs2
    simp at hs2
  · rename_i j2 d2 hs2
    rw [hstep] at hs2
    simp only [Except.ok.injEq, Prod.mk.injEq] at hs2
    rw [hs2.1, hs2.2]

/-- Fuelled well-formedness of an unrecognized-bytes store: the bytes parse
as a sequence of complete, skippable fields whose numbers lie outside the
known set — exactly the chunks the decoder's default case skips and appends
verbatim. -/
def wfUnknownF : Nat → List Int → Bytes → Bool
  | _, _, [] => true
  | 0, _, _ :: _ => false
  | fuel + 1, known, b :: rest =>
    match readVarint (b :: rest) 0 0 with
    | .error _ => false
    | .ok (wire, _) =>
      if wire &&& 7 = 4 then false
      else if toSigned32 (wire >>> 3) ≤ 0 then false
      else if toSigned32 (wire >>> 3) ∈ known then false
      else
        match skipCommon (b :: rest) with
        | .error _ => false
        | .ok skippy =>
          if 1 ≤ skippy ∧ skippy ≤ (b :: rest).length then
            wfUnknownF fuel known ((b :: rest).drop skippy)
          else false

/-- Well-formedness of an unrecognized-bytes store relative to a set of
known field numbers. -/
def wfUnknown (known : List Int) (u : Bytes) : Bool :=
  wfUnknownF u.length known u

/-- The default case of the AdminConfig loop body on a well-formed unknown
field: the chunk is appended verbatim and the position advances past it. -/
theorem acStep_unknown (d : Bytes) (i : Nat) (m : AdminConfig)
    (wire k skippy : Nat)
    (hw : readVarint (d.drop i) 0 0 = .ok (wire, k))
    (h4 : ¬ wire &&& 7 = 4)
    (hpos : ¬ toSigned32 (wire >>> 3) ≤ 0)
    (hne1 : ¬ toSigned32 (wire >>> 3) = 1)
    (hsk : skipCommon (d.drop i) = .ok skippy)
    (hbound : i + skippy ≤ d.length) (hbig : i + skippy < 2 ^ 63) :
    acStep d i m = .ok (i + skippy,
      { m with XXX_unrecognized :=
          m.XXX_unrecognized ++ (d.drop i).take skippy }) := by
  have hnot1 : ¬ 2 ^ 63 ≤ i + skippy := by omega
  have hnot2 : ¬ i + skippy > d.length := by omega
  rw [acStep, hw]
  dsimp only
  rw [if_neg h4, if_neg hpos, if_neg hne1, unknownField, hsk]
  dsimp only
  rw [if_neg hnot1, if_neg hnot2]

/-- The default case of the TapDSConfig loop body on a well-formed unknown
field. -/
theorem tdsStep_unknown (d : Bytes) (i : Nat) (m : TapDSConfig)
    (wire k skippy : Nat)
    (hw : readVarint (d.drop i) 0 0 = .ok (wire, k))
    (h4 : ¬ wire &&& 7 = 4)
    (hpos : ¬ toSigned32 (wire >>> 3) ≤ 0)
    (hne1 : ¬ toSigned32 (wire >>> 3) = 1)
    (hne2 : ¬ toSigned32 (wire >>> 3) = 2)
    (hsk : skipCommon (d.drop i) = .ok skippy)
    (hbound : i + skippy ≤ d.length) (hbig : i + skippy < 2 ^ 63) :
    tdsStep d i m = .ok (i + skippy,
      { m with XXX_unrecognized :=
          m.XXX_unrecognized ++ (d.drop i).take skippy }) := by
  have hnot1 : ¬ 2 ^ 63 ≤ i + skippy := by omega
  have hnot2 : ¬ i + skippy > d.length := by omega
  rw [tdsStep, hw]
  dsimp only
  rw [if_neg h4, if_neg hpos, if_neg hne1, if_neg hne2, unknownField, hsk]
  dsimp only
  rw [if_neg hnot1, if_neg hnot2]

/-- The default case of the CommonExtensionConfig loop body on a
well-formed unknown field. -/
theorem cecStep_unknown (d : Bytes) (i : Nat) (m : CommonExtensionConfig)
    (wire k skippy : Nat)
    (hw : readVarint (d.drop i) 0 0 = .ok (wire, k))
    (h4 : ¬ wire &&& 7 = 4)
    (hpos : ¬ toSigned32 (wire >>> 3) ≤ 0)
    (hne1 : ¬ toSigned32 (wire >>> 3) = 1)
    (hne2 : ¬ toSigned32 (wire >>> 3) = 2)
    (hne3 : ¬ toSigned32 (wire >>> 3) = 3)
    (hsk : skipCommon (d.drop i) = .ok skippy)
    (hbound : i + skippy ≤ d.length) (hbig : i + skippy < 2 ^ 63) :
    cecStep d i m = .ok (i + skippy,
      { m with XXX_unrecognized :=
          m.XXX_unrecognized ++ (d.drop i).take skippy }) := by
  have hnot1 : ¬ 2 ^ 63 ≤ i + skippy := by omega
  have hnot2 : ¬ i + skippy > d.length := by omega
  rw [cecStep, hw]
  dsimp only
  rw [if_neg h4, if_neg hpos, if_neg hne1, if_neg hne2, if_neg hne3,
    unknownField, hsk]
  dsimp only
  rw [if_neg hnot1, if_neg hnot2]

/-- An exhausted loop returns the accumulated message. -/
theorem acLoop_nil (d : Bytes) (i : Nat) (m : AdminConfig)
    (h : i = d.length) : acLoop d i m = .ok m := by
  rw [acLoop_exit d i m (by omega), if_neg (by omega)]

/-- An exhausted loop returns the accumulated message. -/
theorem tdsLoop_nil (d : Bytes) (i : Nat) (m : TapDSConfig)
    (h : i = d.length) : tdsLoop d i m = .ok m := by
  rw [tdsLoop_exit d i m (by omega), if_neg (by omega)]

/-- An exhausted loop returns the accumulated message. -/
theorem cecLoop_nil (d : Bytes) (i : Nat) (m : CommonExtensionConfig)
    (h : i = d.length) : cecLoop d i m = .ok m := by
  rw [cecLoop_exit d i m (by omega), if_neg (by omega)]

/-- Decoding a well-formed unknown-fields tail appends it verbatim to the
unrecognized store: AdminConfig. -/
theorem acLoop_unknown : ∀ (n : Nat) (u d : Bytes) (i : Nat) (m : AdminConfig),
    wfUnknownF n [1] u = true → d.drop i = u → i ≤ d.length →
    d.length < 2 ^ 63 →
    acLoop d i m = .ok { m with XXX_unrecognized := m.XXX_unrecognized ++ u } := by
  intro n
  induction n with
  | zero =>
    intro u d i m hwf hdrop hi hbig
    cases u with
    | nil =>
      have hieq : i = d.length := by
        have hlen := congrArg List.length hdrop
        simp only [List.length_drop, List.length_nil] at hlen
        omega
      rw [acLoop_nil d i m hieq]
      simp
    | cons b rest => simp [wfUnknownF] at hwf
  | succ n ih =>
    intro u d i m hwf hdrop hi hbig
    cases u with
    | nil =>
      have hieq : i = d.length := by
        have hlen := congrArg List.length hdrop
        simp only [List.length_drop, List.length_nil] at hlen
        omega
      rw [acLoop_nil d i m hieq]
      simp
    | cons b rest =>
      have hulen : (b :: rest).length = d.length - i := by
        have hlen := congrArg List.length hdrop
        simp only [List.length_drop] at hlen
        omega
      have hilt : i < d.length := by
        simp only [List.length_cons] at hulen
        omega
      rw [wfUnknownF] at hwf
      split at hwf
      · simp at hwf
      · rename_i wire k hw
        split at hwf
        · simp at hwf
        · rename_i h4
          split at hwf
          · simp at hwf
          · rename_i hpos
            split at hwf
            · simp at hwf
            · rename_i hmem
              split at hwf
              · simp at hwf
              · rename_i skippy hsk
                split at hwf
                · rename_i hbounds
                  obtain ⟨hsk1, hsk2⟩ := hbounds
                  simp only [List.length_cons] at hsk2 hulen
                  have hne1 : ¬ toSigned32 (wire >>> 3) = 1 := by
                    intro hx
                    exact hmem (by simp [hx])
                  have hstep := acStep_unknown d i m wire k skippy
                    (by rw [hdrop]; exact hw) h4 hpos hne1
                    (by rw [hdrop]; exact hsk)
                    (by omega) (by omega)
                  rw [acLoop_step d i m _ _ hilt hstep]
                  have hdrop2 : d.drop (i + skippy) = (b :: rest).drop skippy := by
                    rw [← hdrop, List.drop_drop]
                  have hres := ih ((b :: rest).drop skippy) d (i + skippy)
                    { m with XXX_unrecognized :=
                        m.XXX_unrecognized ++ (d.drop i).take skippy }
                    hwf hdrop2 (by omega) hbig
                  rw [hres, hdrop]
                  simp [List.append_assoc, List.take_append_drop]
                · simp at hwf


/-- Decoding a well-formed unknown-fields tail appends it verbatim to the
unrecognized store: TapDSConfig. -/
theorem tdsLoop_unknown : ∀ (n : Nat) (u d : Bytes) (i : Nat) (m : TapDSConfig),
    wfUnknownF n [1, 2] u = true → d.drop i = u → i ≤ d.length →
    d.length < 2 ^ 63 →
    tdsLoop d i m = .ok { m with XXX_unrecognized := m.XXX_unrecognized ++ u } := by
  intro n
  induction n with
  | zero =>
    intro u d i m hwf hdrop hi hbig
    cases u with
    | nil =>
      have hieq : i = d.length := by
        have hlen := congrArg List.length hdrop
        simp only [List.length_drop, List.length_nil] at hlen
        omega
      rw [tdsLoop_nil d i m hieq]
      simp
    | cons b rest => simp [wfUnknownF] at hwf
  | succ n ih =>
    intro u d i m hwf hdrop hi hbig
    cases u with
    | nil =>
      have hieq : i = d.length := by
        have hlen := congrArg List.length hdrop
        simp only [List.length_drop, List.length_nil] at hlen
        omega
      rw [tdsLoop_nil d i m hieq]
      simp
    | cons b rest =>
      have hulen : (b :: rest).length = d.length - i := by
        have hlen := congrArg List.length hdrop
        simp only [List.length_drop] at hlen
        omega
      have hilt : i < d.length := by
        simp only [List.length_cons] at hulen
        omega
      rw [wfUnknownF] at hwf
      split at hwf
      · simp at hwf
      · rename_i wire k hw
        split at hwf
        · simp at hwf
        · rename_i h4
          split at hwf
          · simp at hwf
          · rename_i hpos
            split at hwf
            · simp at hwf
            · rename_i hmem
              split at hwf
              · simp at hwf
              · rename_i skippy hsk
                split at hwf
                · rename_i hbounds
                  obtain ⟨hsk1, hsk2⟩ := hbounds
                  simp only [List.length_cons] at hsk2 hulen
                  have hne1 : ¬ toSigned32 (wire >>> 3) = 1 := by
                    intro hx
                    exact hmem (by simp [hx])
                  have hne2 : ¬ toSigned32 (wire >>> 3) = 2 := by
                    intro hx
                    exact hmem (by simp [hx])
                  have hstep := tdsStep_unknown d i m wire k skippy
                    (by rw [hdrop]; exact hw) h4 hpos hne1 hne2
                    (by rw [hdrop]; exact hsk)
                    (by omega) (by omega)
                  rw [tdsLoop_step d i m _ _ hilt hstep]
                  have hdrop2 : d.drop (i + skippy) = (b :: rest).drop skippy := by
                    rw [← hdrop, List.drop_drop]
                  have hres := ih ((b :: rest).drop skippy) d (i + skippy)
                    { m with XXX_unrecognized :=
                        m.XXX_unrecognized ++ (d.drop i).take skippy }
                    hwf hdrop2 (by omega) hbig
                  rw [hres, hdrop]
                  simp [List.append_assoc, List.take_append_drop]
                · simp at hwf


/-- Decoding a well-formed unknown-fields tail appends it verbatim to the
unrecognized store: CommonExtensionConfig. -/
theorem cecLoop_unknown : ∀ (n : Nat) (u d : Bytes) (i : Nat) (m : CommonExtensionConfig),
    wfUnknownF n [1, 2, 3] u = true → d.drop i = u → i ≤ d.length →
    d.length < 2 ^ 63 →
    cecLoop d i m = .ok { m with XXX_unrecognized := m.XXX_unrecognized ++ u } := by
  intro n
  induction n with
  | zero =>
    intro u d i m hwf hdrop hi hbig
    cases u with
    | nil =>
      have hieq : i = d.length := by
        have hlen := congrArg List.length hdrop
        simp only [List.length_drop, List.length_nil] at hlen
        omega
      rw [cecLoop_nil d i m hieq]
      simp
    | cons b rest => simp [wfUnknownF] at hwf
  | succ n ih =>
    intro u d i m hwf hdrop hi hbig
    cases u with
    | nil =>
      have hieq : i = d.length := by
        have hlen := congrArg List.length hdrop
        simp only [List.length_drop, List.length_nil] at hlen
        omega
      rw [cecLoop_nil d i m hieq]
      simp
    | cons b rest =>
      have hulen : (b :: rest).length = d.length - i := by
        have hlen := congrArg List.length hdrop
        simp only [List.length_drop] at hlen
        omega
      have hilt : i < d.length := by
        simp only [List.length_cons] at hulen
        omega
      rw [wfUnknownF] at hwf
      split at hwf
      · simp at hwf
      · rename_i wire k hw
        split at hwf
        · simp at hwf
        · rename_i h4
          split at hwf
          · simp at hwf
          · rename_i hpos
            split at hwf
            · simp at hwf
            · rename_i hmem
              split at hwf
              · simp at hwf
              · rename_i skippy hsk
                split at hwf
                · rename_i hbounds
                  obtain ⟨hsk1, hsk2⟩ := hbounds
                  simp only [List.length_cons] at hsk2 hulen
                  have hne1 : ¬ toSigned32 (wire >>> 3) = 1 := by
                    intro hx
                    exact hmem (by simp [hx])
                  have hne2 : ¬ toSigned32 (wire >>> 3) = 2 := by
                    intro hx
                    exact hmem (by simp [hx])
                  have hne3 : ¬ toSigned32 (wire >>> 3) = 3 := by
                    intro hx
                    exact hmem (by simp [hx])
                  have hstep := cecStep_unknown d i m wire k skippy
                    (by rw [hdrop]; exact hw) h4 hpos hne1 hne2 hne3
                    (by rw [hdrop]; exact hsk)
                    (by omega) (by omega)
                  rw [cecLoop_step d i m _ _ hilt hstep]
                  have hdrop2 : d.drop (i + skippy) = (b :: rest).drop skippy := by
                    rw [← hdrop, List.drop_drop]
                  have hres := ih ((b :: rest).drop skippy) d (i + skippy)
                    { m with XXX_unrecognized :=
                        m.XXX_unrecognized ++ (d.drop i).take skippy }
                    hwf hdrop2 (by omega) hbig
                  rw [hres, hdrop]
                  simp [List.append_assoc, List.take_append_drop]
                · simp at hwf


/-- ldField on an encoded length-delimited chunk after a one-byte tag:
reads back the length and returns exactly the encoded payload. -/
theorem ldField_encode (d : Bytes) (i : Nat) (payload rest2 : Bytes)
    (hdrop : d.drop (i + 1) = putVarint payload.length ++ (payload ++ rest2))
    (hplen : payload.length < 2 ^ 63)
    (hin : i + 1 + (putVarint payload.length).length + payload.length ≤ d.length)
    (hbig : d.length < 2 ^ 63) :
    ldField d i 1 =
      .ok (i + 1 + (putVarint payload.length).length + payload.length,
        payload) := by
  have hrv : readVarint (d.drop (i + 1)) 0 0
      = .ok (payload.length, (putVarint payload.length).length) := by
    rw [hdrop]
    have h := readVarint_putVarint payload.length (payload ++ rest2) 0 0
      (by omega) (lt_of_lt_of_le hplen (by norm_num)) (by omega)
    simpa using h
  have hdrop3 : d.drop (i + 1 + (putVarint payload.length).length)
      = payload ++ rest2 := by
    rw [← List.drop_drop, hdrop, List.drop_left]
  rw [ldField, hrv]
  dsimp only
  rw [if_neg (by omega : ¬ 2 ^ 63 ≤ payload.length)]
  rw [if_neg (by omega :
    ¬ 2 ^ 63 ≤ i + 1 + (putVarint payload.length).length + payload.length)]
  rw [if_neg (by omega :
    ¬ i + 1 + (putVarint payload.length).length + payload.length > d.length)]
  rw [hdrop3, List.take_left]

/-- Decoding an encoded ConfigId chunk of AdminConfig overwrites the
field. -/
theorem acStep_field1 (d : Bytes) (i : Nat) (m : AdminConfig)
    (payload rest2 : Bytes)
    (hdrop : d.drop i = 0x0a :: (putVarint payload.length ++ (payload ++ rest2)))
    (hplen : payload.length < 2 ^ 63)
    (hin : i + 1 + (putVarint payload.length).length + payload.length ≤ d.length)
    (hbig : d.length < 2 ^ 63) :
    acStep d i m =
      .ok (i + 1 + (putVarint payload.length).length + payload.length,
        { m with ConfigId := payload }) := by
  have hw : readVarint (d.drop i) 0 0 = .ok (0x0a, 1) := by
    rw [hdrop]
    exact readVarint_single 0x0a _ (by norm_num)
  have hdrop2 : d.drop (i + 1) = putVarint payload.length ++ (payload ++ rest2) := by
    rw [← List.drop_drop, hdrop]
    simp
  have hld := ldField_encode d i payload rest2 hdrop2 hplen hin hbig
  rw [acStep, hw]
  dsimp only
  rw [if_neg (by decide), if_neg (by decide), if_pos (by decide),
    if_neg (by decide), hld]

/-- Decoding an encoded ConfigSource chunk of TapDSConfig merges into the
existing pointer. -/
theorem tdsStep_field1 (d : Bytes) (i : Nat) (m : TapDSConfig)
    (payload rest2 : Bytes)
    (hdrop : d.drop i = 0x0a :: (putVarint payload.length ++ (payload ++ rest2)))
    (hplen : payload.length < 2 ^ 63)
    (hin : i + 1 + (putVarint payload.length).length + payload.length ≤ d.length)
    (hbig : d.length < 2 ^ 63) :
    tdsStep d i m =
      .ok (i + 1 + (putVarint payload.length).length + payload.length,
        { m with
          ConfigSource :=
            some ((m.ConfigSource.getD ⟨[]⟩).unmarshal payload) }) := by
  have hw : readVarint (d.drop i) 0 0 = .ok (0x0a, 1) := by
    rw [hdrop]
    exact readVarint_single 0x0a _ (by norm_num)
  have hdrop2 : d.drop (i + 1) = putVarint payload.length ++ (payload ++ rest2) := by
    rw [← List.drop_drop, hdrop]
    simp
  have hld := ldField_encode d i payload rest2 hdrop2 hplen hin hbig
  rw [tdsStep, hw]
  dsimp only
  rw [if_neg (by decide), if_neg (by decide), if_pos (by decide),
    if_neg (by decide), hld]

/-- Decoding an encoded Name chunk of TapDSConfig overwrites the field. -/
theorem tdsStep_field2 (d : Bytes) (i : Nat) (m : TapDSConfig)
    (payload rest2 : Bytes)
    (hdrop : d.drop i = 0x12 :: (putVarint payload.length ++ (payload ++ rest2)))
    (hplen : payload.length < 2 ^ 63)
    (hin : i + 1 + (putVarint payload.length).length + payload.length ≤ d.length)
    (hbig : d.length < 2 ^ 63) :
    tdsStep d i m =
      .ok (i + 1 + (putVarint payload.length).length + payload.length,
        { m with Name := payload }) := by
  have hw : readVarint (d.drop i) 0 0 = .ok (0x12, 1) := by
    rw [hdrop]
    exact readVarint_single 0x12 _ (by norm_num)
  have hdrop2 : d.drop (i + 1) = putVarint payload.length ++ (payload ++ rest2) := by
    rw [← List.drop_drop, hdrop]
    simp
  have hld := ldField_encode d i payload rest2 hdrop2 hplen hin hbig
  rw [tdsStep, hw]
  dsimp only
  rw [if_neg (by decide), if_neg (by decide), if_neg (by decide),
    if_pos (by decide), if_neg (by decide), hld]

/-- Decoding an encoded field-1 chunk of CommonExtensionConfig installs a
freshly decoded AdminConfig as the active variant. -/
theorem cecStep_field1 (d : Bytes) (i : Nat) (m : CommonExtensionConfig)
    (payload rest2 : Bytes) (a : AdminConfig)
    (hdrop : d.drop i = 0x0a :: (putVarint payload.length ++ (payload ++ rest2)))
    (hplen : payload.length < 2 ^ 63)
    (hin : i + 1 + (putVarint payload.length).length + payload.length ≤ d.length)
    (hbig : d.length < 2 ^ 63)
    (hA : AdminConfig.Unmarshal payload = .ok a) :
    cecStep d i m =
      .ok (i + 1 + (putVarint payload.length).length + payload.length,
        { m with ConfigType := some (.adminConfig (some a)) }) := by
  have hw : readVarint (d.drop i) 0 0 = .ok (0x0a, 1) := by
    rw [hdrop]
    exact readVarint_single 0x0a _ (by norm_num)
  have hdrop2 : d.drop (i + 1) = putVarint payload.length ++ (payload ++ rest2) := by
    rw [← List.drop_drop, hdrop]
    simp
  have hld := ldField_encode d i payload rest2 hdrop2 hplen hin hbig
  rw [cecStep, hw]
  dsimp only
  rw [if_neg (by decide), if_neg (by decide), if_pos (by decide),
    if_neg (by decide), hld]
  dsimp only
  rw [hA]

/-- Decoding an encoded field-2 chunk of CommonExtensionConfig installs a
fresh TapConfig as the active variant. -/
theorem cecStep_field2 (d : Bytes) (i : Nat) (m : CommonExtensionConfig)
    (payload rest2 : Bytes)
    (hdrop : d.drop i = 0x12 :: (putVarint payload.length ++ (payload ++ rest2)))
    (hplen : payload.length < 2 ^ 63)
    (hin : i + 1 + (putVarint payload.length).length + payload.length ≤ d.length)
    (hbig : d.length < 2 ^ 63) :
    cecStep d i m =
      .ok (i + 1 + (putVarint payload.length).length + payload.length,
        { m with ConfigType := some (.staticConfig (some ⟨payload⟩)) }) := by
  have hw : readVarint (d.drop i) 0 0 = .ok (0x12, 1) := by
    rw [hdrop]
    exact readVarint_single 0x12 _ (by norm_num)
  have hdrop2 : d.drop (i + 1) = putVarint payload.length ++ (payload ++ rest2) := by
    rw [← List.drop_drop, hdrop]
    simp
  have hld := ldField_encode d i payload rest2 hdrop2 hplen hin hbig
  rw [cecStep, hw]
  dsimp only
  rw [if_neg (by decide), if_neg (by decide), if_neg (by decide),
    if_pos (by decide), if_neg (by decide), hld]
  dsimp only
  rw [TapConfig.unmarshal]
  simp

/-- Decoding an encoded field-3 chunk of CommonExtensionConfig installs a
freshly decoded TapDSConfig as the active variant. -/
theorem cecStep_field3 (d : Bytes) (i : Nat) (m : CommonExtensionConfig)
    (payload rest2 : Bytes) (t : TapDSConfig)
    (hdrop : d.drop i = 0x1a :: (putVarint payload.length ++ (payload ++ rest2)))
    (hplen : payload.length < 2 ^ 63)
    (hin : i + 1 + (putVarint payload.length).length + payload.length ≤ d.length)
    (hbig : d.length < 2 ^ 63)
    (hT : TapDSConfig.Unmarshal payload = .ok t) :
    cecStep d i m =
      .ok (i + 1 + (putVarint payload.length).length + payload.length,
        { m with ConfigType := some (.tapdsConfig (some t)) }) := by
  have hw : readVarint (d.drop i) 0 0 = .ok (0x1a, 1) := by
    rw [hdrop]
    exact readVarint_single 0x1a _ (by norm_num)
  have hdrop2 : d.drop (i + 1) = putVarint payload.length ++ (payload ++ rest2) := by
    rw [← List.drop_drop, hdrop]
    simp
  have hld := ldField_encode d i payload rest2 hdrop2 hplen hin hbig
  rw [cecStep, hw]
  dsimp only
  rw [if_neg (by decide), if_neg (by decide), if_neg (by decide),
    if_neg (by decide), if_pos (by decide), if_neg (by decide), hld]
  dsimp only
  rw [hT]

/-- A valid AdminConfig value: its unrecognized store is a well-formed
sequence of fields with numbers outside its schema (field 1). -/
def AdminConfig.Valid (m : AdminConfig) : Prop :=
  wfUnknown [1] m.XXX_unrecognized = true

/-- A valid TapDSConfig value: its unrecognized store is a well-formed
sequence of fields with numbers outside its schema (fields 1 and 2). -/
def TapDSConfig.Valid (m : TapDSConfig) : Prop :=
  wfUnknown [1, 2] m.XXX_unrecognized = true

/-- A valid CommonExtensionConfig value: well-formed unrecognized store and,
when the oneof is populated, a non-nil payload pointer that is itself
valid. -/
def CommonExtensionConfig.Valid (m : CommonExtensionConfig) : Prop :=
  wfUnknown [1, 2, 3] m.XXX_unrecognized = true ∧
  (match m.ConfigType with
   | none => True
   | some (.adminConfig v) => ∃ a, v = some a ∧ a.Valid
   | some (.staticConfig v) => ∃ t, v = some t
   | some (.tapdsConfig v) => ∃ t, v = some t ∧ t.Valid)

/-- Round trip for AdminConfig: unmarshalling its own encoding reproduces
the message field for field. -/
theorem adminConfig_roundtrip (m : AdminConfig) (hval : m.Valid)
    (hsize : AdminConfig.Size (some m) < 2 ^ 63) :
    AdminConfig.Unmarshal m.Marshal = .ok m := by
  have hsz : AdminConfig.Size (some m)
      = (if m.ConfigId.length > 0 then
          1 + m.ConfigId.length + sovCommon m.ConfigId.length else 0)
        + m.XXX_unrecognized.length := rfl
  have hwf : wfUnknownF m.XXX_unrecognized.length [1] m.XXX_unrecognized = true :=
    hval
  unfold AdminConfig.Unmarshal
  by_cases hcid : m.ConfigId.length > 0
  · have hd2 : m.Marshal = (0x0a :: (putVarint m.ConfigId.length ++ m.ConfigId))
        ++ m.XXX_unrecognized := by
      unfold AdminConfig.Marshal
      rw [if_pos hcid]
    have hd : m.Marshal = 0x0a :: (putVarint m.ConfigId.length
        ++ (m.ConfigId ++ m.XXX_unrecognized)) := by
      rw [hd2]
      simp [List.append_assoc]
    have hmlen : m.Marshal.length = 1 + (putVarint m.ConfigId.length).length
        + m.ConfigId.length + m.XXX_unrecognized.length := by
      rw [hd]
      simp
      omega
    have hszlt : 1 + m.ConfigId.length + sovCommon m.ConfigId.length
        + m.XXX_unrecognized.length < 2 ^ 63 := by
      rw [hsz, if_pos hcid] at hsize
      omega
    have hpv := putVarint_length m.ConfigId.length
    have hstep := acStep_field1 m.Marshal 0 ⟨[], []⟩ m.ConfigId
      m.XXX_unrecognized
      (by rw [List.drop_zero]; exact hd)
      (by omega) (by omega) (by omega)
    rw [acLoop_step m.Marshal 0 ⟨[], []⟩ _ _ (by rw [hd]; simp) hstep]
    have hdropu : m.Marshal.drop
        (0 + 1 + (putVarint m.ConfigId.length).length + m.ConfigId.length)
        = m.XXX_unrecognized := by
      rw [hd2]
      refine List.drop_left' ?_
      simp
      omega
    have hres := acLoop_unknown m.XXX_unrecognized.length m.XXX_unrecognized
      m.Marshal (0 + 1 + (putVarint m.ConfigId.length).length + m.ConfigId.length)
      { ConfigId := m.ConfigId, XXX_unrecognized := ([] : Bytes) }
      hwf hdropu (by omega) (by omega)
    rw [hres]
    simp
  · have hcidnil : m.ConfigId = [] := by
      cases hc : m.ConfigId with
      | nil => rfl
      | cons x xs =>
        rw [hc] at hcid
        simp at hcid
    have hd : m.Marshal = m.XXX_unrecognized := by
      unfold AdminConfig.Marshal
      rw [if_neg hcid]
      simp
    have hres := acLoop_unknown m.XXX_unrecognized.length m.XXX_unrecognized
      m.Marshal 0 ⟨[], []⟩ hwf (by rw [List.drop_zero]; exact hd)
      (by omega) (by rw [hd]; omega)
    rw [hres]
    cases m with
    | mk cid u =>
      simp only [Except.ok.injEq]
      simp at hcidnil
      simp [hcidnil]

/-- Decoding the tail of a TapDSConfig encoding: the optional Name chunk
followed by the well-formed unknown bytes. -/
theorem tdsLoop_tail (d : Bytes) (i : Nat) (m : TapDSConfig)
    (name u : Bytes)
    (hdrop : d.drop i = (if name.length > 0
        then 0x12 :: (putVarint name.length ++ name) else []) ++ u)
    (hwf : wfUnknownF u.length [1, 2] u = true)
    (hi : i ≤ d.length) (hbig : d.length < 2 ^ 63) :
    tdsLoop d i m =
      .ok { m with
            Name := if name.length > 0 then name else m.Name,
            XXX_unrecognized := m.XXX_unrecognized ++ u } := by
  by_cases hn : name.length > 0
  · rw [if_pos hn] at hdrop
    have htail : (d.drop i).length = d.length - i := by simp
    have hlen2 : d.length - i
        = 1 + (putVarint name.length).length + name.length + u.length := by
      rw [← htail, hdrop]
      simp
      omega
    have hpv := putVarint_length name.length
    have hd : d.drop i
        = 0x12 :: (putVarint name.length ++ (name ++ u)) := by
      rw [hdrop]
      simp [List.append_assoc]
    have hstep := tdsStep_field2 d i m name u hd
      (by omega) (by omega) (by omega)
    rw [tdsLoop_step d i m _ _ (by omega) hstep]
    have hdropu : d.drop (i + 1 + (putVarint name.length).length + name.length)
        = u := by
      have h1 : d.drop (i + 1 + (putVarint name.length).length + name.length)
          = (d.drop i).drop (1 + (putVarint name.length).length + name.length) := by
        rw [List.drop_drop]
        congr 1
        omega
      rw [h1, hdrop]
      refine List.drop_left' ?_
      simp
      omega
    have hres := tdsLoop_unknown u.length u d
      (i + 1 + (putVarint name.length).length + name.length)
      { m with Name := name } hwf hdropu (by omega) hbig
    rw [hres]
    rw [if_pos hn]
  · rw [if_neg hn] at hdrop
    simp only [List.nil_append] at hdrop
    have hlen2 : d.length - i = u.length := by
      have htail := congrArg List.length hdrop
      simp at htail
      omega
    have hres := tdsLoop_unknown u.length u d i m hwf hdrop (by omega) hbig
    rw [hres]
    rw [if_neg hn]

/-- Round trip for TapDSConfig: unmarshalling its own encoding reproduces
the message field for field. -/
theorem tapDSConfig_roundtrip (m : TapDSConfig) (hval : m.Valid)
    (hsize : TapDSConfig.Size (some m) < 2 ^ 63) :
    TapDSConfig.Unmarshal m.Marshal = .ok m := by
  have hwf : wfUnknownF m.XXX_unrecognized.length [1, 2] m.XXX_unrecognized
      = true := hval
  have hdlen := tapDSConfig_marshal_size m
  unfold TapDSConfig.Unmarshal
  cases hcs : m.ConfigSource with
  | none =>
    have hd : m.Marshal = (if m.Name.length > 0
        then 0x12 :: (putVarint m.Name.length ++ m.Name) else [])
        ++ m.XXX_unrecognized := by
      unfold TapDSConfig.Marshal
      rw [hcs]
      simp
    have hres := tdsLoop_tail m.Marshal 0 ⟨none, [], []⟩ m.Name
      m.XXX_unrecognized (by rw [List.drop_zero]; exact hd) hwf
      (by omega) (by omega)
    rw [hres]
    cases m with
    | mk cs0 name0 u0 =>
      simp only at hcs
      simp only [Except.ok.injEq, hcs]
      by_cases hn : name0.length > 0
      · simp [hn]
      · have : name0 = [] := by
          cases name0 with
          | nil => rfl
          | cons x xs => simp at hn
        simp [hn, this]
  | some c =>
    have hsz : TapDSConfig.Size (some m)
        = (1 + c.size + sovCommon c.size)
          + (if m.Name.length > 0
              then 1 + m.Name.length + sovCommon m.Name.length else 0)
          + m.XXX_unrecognized.length := by
      simp only [TapDSConfig.Size, hcs]
    have hpv := putVarint_length c.payload.length
    have hd2 : m.Marshal = (0x0a :: (putVarint c.payload.length ++ c.payload))
        ++ ((if m.Name.length > 0
            then 0x12 :: (putVarint m.Name.length ++ m.Name) else [])
          ++ m.XXX_unrecognized) := by
      unfold TapDSConfig.Marshal
      rw [hcs]
      simp [ConfigSource.encode]
    have hd : m.Marshal.drop 0 = 0x0a :: (putVarint c.payload.length
        ++ (c.payload ++ ((if m.Name.length > 0
            then 0x12 :: (putVarint m.Name.length ++ m.Name) else [])
          ++ m.XXX_unrecognized))) := by
      rw [List.drop_zero, hd2]
      simp [List.append_assoc]
    have hcsize : c.size = c.payload.length := rfl
    have hnamesize : (if m.Name.length > 0
        then 1 + m.Name.length + sovCommon m.Name.length else 0) ≥ 0 := by omega
    have hplen : c.payload.length < 2 ^ 63 := by
      rw [hsz] at hsize
      rw [hcsize] at hsize
      omega
    have hin : 0 + 1 + (putVarint c.payload.length).length + c.payload.length
        ≤ m.Marshal.length := by
      rw [hdlen, hsz, hcsize]
      omega
    have hstep := tdsStep_field1 m.Marshal 0 ⟨none, [], []⟩ c.payload
      _ hd hplen hin (by rw [hdlen]; omega)
    rw [tdsLoop_step m.Marshal 0 ⟨none, [], []⟩ _ _
      (by rw [hdlen, hsz, hcsize]; omega) hstep]
    have hdropt : m.Marshal.drop
        (0 + 1 + (putVarint c.payload.length).length + c.payload.length)
        = (if m.Name.length > 0
            then 0x12 :: (putVarint m.Name.length ++ m.Name) else [])
          ++ m.XXX_unrecognized := by
      rw [hd2]
      refine List.drop_left' ?_
      simp
      omega
    have hres := tdsLoop_tail m.Marshal
      (0 + 1 + (putVarint c.payload.length).length + c.payload.length)
      { ConfigSource := some (((⟨none, [], []⟩ : TapDSConfig).ConfigSource.getD
          ⟨[]⟩).unmarshal c.payload), Name := [], XXX_unrecognized := [] }
      m.Name m.XXX_unrecognized hdropt hwf
      (by rw [hdlen, hsz, hcsize]; omega) (by rw [hdlen]; omega)
    rw [hres]
    cases m with
    | mk cs0 name0 u0 =>
      simp only at hcs
      simp only [Except.ok.injEq, hcs]
      simp only [ConfigSource.unmarshal, Option.getD]
      by_cases hn : name0.length > 0
      · simp [hn]
      · have hnil : name0 = [] := by
          cases name0 with
          | nil => rfl
          | cons x xs => simp at hn
        simp [hn, hnil]

/-- Round trip for CommonExtensionConfig: unmarshalling its own encoding
reproduces the message — the oneof variant, its payload, and the
unrecognized bytes. -/
theorem commonExtensionConfig_roundtrip (m : CommonExtensionConfig)
    (hval : m.Valid) (hsize : CommonExtensionConfig.Size (some m) < 2 ^ 63) :
    CommonExtensionConfig.Unmarshal m.Marshal = .ok m := by
  obtain ⟨hwf0, hvar⟩ := hval
  have hwf : wfUnknownF m.XXX_unrecognized.length [1, 2, 3] m.XXX_unrecognized
      = true := hwf0
  have hdlen := commonExtensionConfig_marshal_size m
  unfold CommonExtensionConfig.Unmarshal
  cases hct : m.ConfigType with
  | none =>
    have hd : m.Marshal = m.XXX_unrecognized := by
      unfold CommonExtensionConfig.Marshal
      rw [hct]
      simp
    have hres := cecLoop_unknown m.XXX_unrecognized.length m.XXX_unrecognized
      m.Marshal 0 ⟨none, []⟩ hwf (by rw [List.drop_zero]; exact hd)
      (by omega) (by rw [hdlen]; exact hsize)
    rw [hres]
    cases m with
    | mk ct0 u0 =>
      simp only at hct
      simp [hct]
  | some ct =>
    have hsz : CommonExtensionConfig.Size (some m)
        = ct.Size + m.XXX_unrecognized.length := by
      simp only [CommonExtensionConfig.Size, hct]
    have hd2 : m.Marshal = ct.encode ++ m.XXX_unrecognized := by
      unfold CommonExtensionConfig.Marshal
      rw [hct]
    cases ct with
    | adminConfig v =>
      rw [hct] at hvar
      obtain ⟨a, rfl, haval⟩ := hvar
      have hpl := adminConfig_marshal_size a
      have hpv := putVarint_length a.Marshal.length
      have hpl2 : sovCommon a.Marshal.length
          = sovCommon (AdminConfig.Size (some a)) := by rw [hpl]
      have hcts : (ConfigType.adminConfig (some a)).Size
          = 1 + AdminConfig.Size (some a)
            + sovCommon (AdminConfig.Size (some a)) := rfl
      have hasize : AdminConfig.Size (some a) < 2 ^ 63 := by
        rw [hsz, hcts] at hsize
        omega
      have hA := adminConfig_roundtrip a haval hasize
      have hd : m.Marshal.drop 0 = 0x0a :: (putVarint a.Marshal.length
          ++ (a.Marshal ++ m.XXX_unrecognized)) := by
        rw [List.drop_zero, hd2]
        simp only [ConfigType.encode]
        simp [List.append_assoc]
      have hstep := cecStep_field1 m.Marshal 0 ⟨none, []⟩ a.Marshal
        m.XXX_unrecognized a hd (by omega)
        (by rw [hdlen, hsz, hcts]; omega)
        (by rw [hdlen]; omega) hA
      rw [cecLoop_step m.Marshal 0 ⟨none, []⟩ _ _
        (by rw [hdlen, hsz, hcts]; omega) hstep]
      have hdropu : m.Marshal.drop
          (0 + 1 + (putVarint a.Marshal.length).length + a.Marshal.length)
          = m.XXX_unrecognized := by
        rw [hd2]
        refine List.drop_left' ?_
        simp only [ConfigType.encode]
        simp
        omega
      have hres := cecLoop_unknown m.XXX_unrecognized.length m.XXX_unrecognized
        m.Marshal (0 + 1 + (putVarint a.Marshal.length).length + a.Marshal.length)
        { ConfigType := some (.adminConfig (some a)), XXX_unrecognized := [] }
        hwf hdropu (by rw [hdlen, hsz, hcts]; omega) (by rw [hdlen]; omega)
      rw [hres]
      cases m with
      | mk ct0 u0 =>
        simp only at hct
        simp [hct]
    | staticConfig v =>
      rw [hct] at hvar
      obtain ⟨t, rfl⟩ := hvar
      have hpv := putVarint_length t.encode.length
      have hcts : (ConfigType.staticConfig (some t)).Size
          = 1 + t.size + sovCommon t.size := rfl
      have htsz : t.size = t.encode.length := rfl
      have hd : m.Marshal.drop 0 = 0x12 :: (putVarint t.encode.length
          ++ (t.encode ++ m.XXX_unrecognized)) := by
        rw [List.drop_zero, hd2]
        simp only [ConfigType.encode]
        simp [List.append_assoc]
      have hstep := cecStep_field2 m.Marshal 0 ⟨none, []⟩ t.encode
        m.XXX_unrecognized hd
        (by rw [hsz, hcts, htsz] at hsize; omega)
        (by rw [hdlen, hsz, hcts, htsz]; omega)
        (by rw [hdlen]; omega)
      rw [cecLoop_step m.Marshal 0 ⟨none, []⟩ _ _
        (by rw [hdlen, hsz, hcts, htsz]; omega) hstep]
      have hdropu : m.Marshal.drop
          (0 + 1 + (putVarint t.encode.length).length + t.encode.length)
          = m.XXX_unrecognized := by
        rw [hd2]
        refine List.drop_left' ?_
        simp only [ConfigType.encode]
        simp
        omega
      have hres := cecLoop_unknown m.XXX_unrecognized.length m.XXX_unrecognized
        m.Marshal (0 + 1 + (putVarint t.encode.length).length + t.encode.length)
        { ConfigType := some (.staticConfig (some ⟨t.encode⟩)),
          XXX_unrecognized := [] }
        hwf hdropu (by rw [hdlen, hsz, hcts, htsz]; omega) (by rw [hdlen]; omega)
      rw [hres]
      cases m with
      | mk ct0 u0 =>
        simp only at hct
        simp only [Except.ok.injEq, hct]
        simp [TapConfig.encode]
    | tapdsConfig v =>
      rw [hct] at hvar
      obtain ⟨t, rfl, htval⟩ := hvar
      have hpl := tapDSConfig_marshal_size t
      have hpv := putVarint_length t.Marshal.length
      have hpl2 : sovCommon t.Marshal.length
          = sovCommon (TapDSConfig.Size (some t)) := by rw [hpl]
      have hcts : (ConfigType.tapdsConfig (some t)).Size
          = 1 + TapDSConfig.Size (some t)
            + sovCommon (TapDSConfig.Size (some t)) := rfl
      have htsize : TapDSConfig.Size (some t) < 2 ^ 63 := by
        rw [hsz, hcts] at hsize
        omega
      have hT := tapDSConfig_roundtrip t htval htsize
      have hd : m.Marshal.drop 0 = 0x1a :: (putVarint t.Marshal.length
          ++ (t.Marshal ++ m.XXX_unrecognized)) := by
        rw [List.drop_zero, hd2]
        simp only [ConfigType.encode]
        simp [List.append_assoc]
      have hstep := cecStep_field3 m.Marshal 0 ⟨none, []⟩ t.Marshal
        m.XXX_unrecognized t hd (by omega)
        (by rw [hdlen, hsz, hcts]; omega)
        (by rw [hdlen]; omega) hT
      rw [cecLoop_step m.Marshal 0 ⟨none, []⟩ _ _
        (by rw [hdlen, hsz, hcts]; omega) hstep]
      have hdropu : m.Marshal.drop
          (0 + 1 + (putVarint t.Marshal.length).length + t.Marshal.length)
          = m.XXX_unrecognized := by
        rw [hd2]
        refine List.drop_left' ?_
        simp only [ConfigType.encode]
        simp
        omega
      have hres := cecLoop_unknown m.XXX_unrecognized.length m.XXX_unrecognized
        m.Marshal (0 + 1 + (putVarint t.Marshal.length).length + t.Marshal.length)
        { ConfigType := some (.tapdsConfig (some t)), XXX_unrecognized := [] }
        hwf hdropu (by rw [hdlen, hsz, hcts]; omega) (by rw [hdlen]; omega)
      rw [hres]
      cases m with
      | mk ct0 u0 =>
        simp only at hct
        simp [hct]

/-- Take-invariance of varint reads: a successful read only looks at the
bytes it consumes. -/
theorem readVarint_take : ∀ (data : Bytes) (shift acc v k n : Nat),
    readVarint data shift acc = .ok (v, k) → k ≤ n →
    readVarint (data.take n) shift acc = .ok (v, k) := by
  intro data
  induction data with
  | nil =>
    intro shift acc v k n h hk
    rw [readVarint.eq_def] at h
    split at h
    · simp at h
    · simp at h
  | cons b rest ih =>
    intro shift acc v k n h hk
    have hk1 := readVarint_consumed _ _ _ _ _ h
    rw [readVarint.eq_def] at h
    split at h
    · simp at h
    · rename_i hs
      obtain ⟨n2, rfl⟩ : ∃ n2, n = n2 + 1 := ⟨n - 1, by omega⟩
      rw [List.take_succ_cons, readVarint.eq_def, if_neg hs]
      dsimp only at h ⊢
      by_cases hb : b < 0x80
      · rw [if_pos hb] at h ⊢
        exact h
      · rw [if_neg hb] at h ⊢
        split at h
        · simp at h
        · rename_i v2 k2 hrec
          simp only [Except.ok.injEq, Prod.mk.injEq] at h
          have := readVarint_consumed _ _ _ _ _ hrec
          rw [ih _ _ _ _ n2 hrec (by omega)]
          dsimp only
          simp only [Except.ok.injEq, Prod.mk.injEq]
          exact ⟨h.1, by omega⟩

/-- Truncating a successful varint read strictly inside the bytes it
consumed yields the truncated-input error. -/
theorem readVarint_trunc : ∀ (data : Bytes) (shift acc v k n : Nat),
    readVarint data shift acc = .ok (v, k) → n < k →
    readVarint (data.take n) shift acc = .error .unexpectedEOF := by
  intro data
  induction data with
  | nil =>
    intro shift acc v k n h hn
    rw [readVarint.eq_def] at h
    split at h
    · simp at h
    · simp at h
  | cons b rest ih =>
    intro shift acc v k n h hn
    have hk1 := readVarint_consumed _ _ _ _ _ h
    rw [readVarint.eq_def] at h
    split at h
    · simp at h
    · rename_i hs
      cases n with
      | zero =>
        rw [List.take_zero, readVarint.eq_def, if_neg hs]
      | succ n2 =>
        rw [List.take_succ_cons, readVarint.eq_def, if_neg hs]
        dsimp only at h ⊢
        by_cases hb : b < 0x80
        · rw [if_pos hb] at h
          simp only [Except.ok.injEq, Prod.mk.injEq] at h
          omega
        · rw [if_neg hb] at h ⊢
          split at h
          · simp at h
          · rename_i v2 k2 hrec
            simp only [Except.ok.injEq, Prod.mk.injEq] at h
            rw [ih _ _ _ _ n2 hrec (by omega)]

/-- A successful skip iteration consumes at least the tag it read. -/
theorem skipStep_ge_tag (d : Bytes) (p dep i2 dep2 w k : Nat)
    (h : skipStep d p dep = .ok (i2, dep2))
    (hw : readVarint (d.drop p) 0 0 = .ok (w, k)) : p + k ≤ i2 := by
  rw [skipStep, hw] at h
  dsimp only at h
  split at h
  · split at h
    · simp at h
    · simp only [Except.ok.injEq, Prod.mk.injEq] at h
      omega
  · simp only [Except.ok.injEq, Prod.mk.injEq] at h
    omega
  · split at h
    · simp at h
    · split at h
      · simp at h
      · simp only [Except.ok.injEq, Prod.mk.injEq] at h
        omega
  · simp only [Except.ok.injEq, Prod.mk.injEq] at h
    omega
  · split at h
    · simp at h
    · simp only [Except.ok.injEq, Prod.mk.injEq] at h
      omega
  · simp only [Except.ok.injEq, Prod.mk.injEq] at h
    omega
  · simp at h

/-- Take-invariance of one skip iteration. -/
theorem skipStep_take (d : Bytes) (p dep i2 dep2 n : Nat)
    (h : skipStep d p dep = .ok (i2, dep2)) (hn : i2 ≤ n)
    (hnd : n ≤ d.length) : skipStep (d.take n) p dep = .ok (i2, dep2) := by
  rw [skipStep] at h
  split at h
  · simp at h
  · rename_i w k hw
    have hbound := skipStep_ge_tag d p dep i2 dep2 w k
      (by rw [skipStep, hw]; exact h) hw
    have htag : readVarint ((d.take n).drop p) 0 0 = .ok (w, k) := by
      rw [List.drop_take]
      exact readVarint_take _ _ _ _ _ _ hw (by omega)
    split at h
    · rename_i hwt
      split at h
      · simp at h
      · rename_i v0 k2 hrv2
        simp only [Except.ok.injEq, Prod.mk.injEq] at h
        have htag2 : readVarint ((d.take n).drop (p + k)) 0 0
            = .ok (v0, k2) := by
          rw [List.drop_take]
          exact readVarint_take _ _ _ _ _ _ hrv2 (by omega)
        rw [skipStep, htag]
        dsimp only
        rw [hwt]
        try dsimp only
        rw [htag2]
        try dsimp only
        simp only [Except.ok.injEq, Prod.mk.injEq]
        omega
    · rename_i hwt
      simp only [Except.ok.injEq, Prod.mk.injEq] at h
      rw [skipStep, htag]
      dsimp only
      rw [hwt]
      try dsimp only
      simp only [Except.ok.injEq, Prod.mk.injEq]
      omega
    · rename_i hwt
      split at h
      · simp at h
      · rename_i v0 k2 hrv2
        split at h
        · simp at h
        · rename_i hv63
          simp only [Except.ok.injEq, Prod.mk.injEq] at h
          have htag2 : readVarint ((d.take n).drop (p + k)) 0 0
              = .ok (v0, k2) := by
            rw [List.drop_take]
            exact readVarint_take _ _ _ _ _ _ hrv2 (by omega)
          rw [skipStep, htag]
          dsimp only
          rw [hwt]
          try dsimp only
          rw [htag2]
          try dsimp only
          rw [if_neg hv63]
          simp only [Except.ok.injEq, Prod.mk.injEq]
          omega
    · rename_i hwt
      simp only [Except.ok.injEq, Prod.mk.injEq] at h
      rw [skipStep, htag]
      dsimp only
      rw [hwt]
      try dsimp only
      simp only [Except.ok.injEq, Prod.mk.injEq]
      omega
    · rename_i hwt
      split at h
      · simp at h
      · rename_i hdep
        simp only [Except.ok.injEq, Prod.mk.injEq] at h
        rw [skipStep, htag]
        dsimp only
        rw [hwt]
        try dsimp only
        rw [if_neg hdep]
        simp only [Except.ok.injEq, Prod.mk.injEq]
        omega
    · rename_i hwt
      simp only [Except.ok.injEq, Prod.mk.injEq] at h
      rw [skipStep, htag]
      dsimp only
      rw [hwt]
      try dsimp only
      simp only [Except.ok.injEq, Prod.mk.injEq]
      omega
    · simp at h

/-- Truncating one skip iteration: either the truncated read fails with
the truncated-input error, or it produces the very same result (cases that
jump past the cut without reading, such as fixed-width fields). -/
theorem skipStep_trunc (d : Bytes) (p dep i2 dep2 n : Nat)
    (h : skipStep d p dep = .ok (i2, dep2)) (hp : p ≤ n) (hnd : n ≤ d.length) :
    skipStep (d.take n) p dep = .ok (i2, dep2) ∨
      skipStep (d.take n) p dep = .error .unexpectedEOF := by
  rw [skipStep] at h
  split at h
  · simp at h
  · rename_i w k hw
    by_cases htagfit : p + k ≤ n
    · have htag : readVarint ((d.take n).drop p) 0 0 = .ok (w, k) := by
        rw [List.drop_take]
        exact readVarint_take _ _ _ _ _ _ hw (by omega)
      split at h
      · rename_i hwt
        split at h
        · simp at h
        · rename_i v0 k2 hrv2
          simp only [Except.ok.injEq, Prod.mk.injEq] at h
          by_cases hfit2 : p + k + k2 ≤ n
          · left
            have htag2 : readVarint ((d.take n).drop (p + k)) 0 0
                = .ok (v0, k2) := by
              rw [List.drop_take]
              exact readVarint_take _ _ _ _ _ _ hrv2 (by omega)
            rw [skipStep, htag]
            dsimp only
            rw [hwt]
            try dsimp only
            rw [htag2]
            try dsimp only
            simp only [Except.ok.injEq, Prod.mk.injEq]
            omega
          · right
            have htag2 : readVarint ((d.take n).drop (p + k)) 0 0
                = .error .unexpectedEOF := by
              rw [List.drop_take]
              exact readVarint_trunc _ _ _ _ _ _ hrv2 (by omega)
            rw [skipStep, htag]
            dsimp only
            rw [hwt]
            try dsimp only
            rw [htag2]
      · rename_i hwt
        simp only [Except.ok.injEq, Prod.mk.injEq] at h
        left
        rw [skipStep, htag]
        dsimp only
        rw [hwt]
        try dsimp only
        simp only [Except.ok.injEq, Prod.mk.injEq]
        omega
      · rename_i hwt
        split at h
        · simp at h
        · rename_i v0 k2 hrv2
          split at h
          · simp at h
          · rename_i hv63
            simp only [Except.ok.injEq, Prod.mk.injEq] at h
            by_cases hfit2 : p + k + k2 ≤ n
            · left
              have htag2 : readVarint ((d.take n).drop (p + k)) 0 0
                  = .ok (v0, k2) := by
                rw [List.drop_take]
                exact readVarint_take _ _ _ _ _ _ hrv2 (by omega)
              rw [skipStep, htag]
              dsimp only
              rw [hwt]
              try dsimp only
              rw [htag2]
              try dsimp only
              rw [if_neg hv63]
              simp only [Except.ok.injEq, Prod.mk.injEq]
              omega
            · right
              have htag2 : readVarint ((d.take n).drop (p + k)) 0 0
                  = .error .unexpectedEOF := by
                rw [List.drop_take]
                exact readVarint_trunc _ _ _ _ _ _ hrv2 (by omega)
              rw [skipStep, htag]
              dsimp only
              rw [hwt]
              try dsimp only
              rw [htag2]
      · rename_i hwt
        simp only [Except.ok.injEq, Prod.mk.injEq] at h
        left
        rw [skipStep, htag]
        dsimp only
        rw [hwt]
        try dsimp only
        simp only [Except.ok.injEq, Prod.mk.injEq]
        omega
      · rename_i hwt
        split at h
        · simp at h
        · rename_i hdep
          simp only [Except.ok.injEq, Prod.mk.injEq] at h
          left
          rw [skipStep, htag]
          dsimp only
          rw [hwt]
          try dsimp only
          rw [if_neg hdep]
          simp only [Except.ok.injEq, Prod.mk.injEq]
          omega
      · rename_i hwt
        simp only [Except.ok.injEq, Prod.mk.injEq] at h
        left
        rw [skipStep, htag]
        dsimp only
        rw [hwt]
        try dsimp only
        simp only [Except.ok.injEq, Prod.mk.injEq]
        omega
      · simp at h
    · right
      have htag : readVarint ((d.take n).drop p) 0 0
          = .error .unexpectedEOF := by
        rw [List.drop_take]
        exact readVarint_trunc _ _ _ _ _ _ hw (by omega)
      rw [skipStep, htag]

/-- Take-invariance of a full skip run, with explicit fuel. -/
theorem skipLoop_take_fuel (d : Bytes) : ∀ (fuel p dep sk n : Nat),
    d.length - p < fuel → skipLoop d p dep = .ok sk → sk ≤ n → n ≤ d.length →
    skipLoop (d.take n) p dep = .ok sk := by
  intro fuel
  induction fuel with
  | zero =>
    intro p dep sk n hf h hsk hnd
    omega
  | succ f ih =>
    intro p dep sk n hf h hsk hnd
    by_cases hlt : p < d.length
    · cases hstep : skipStep d p dep with
      | error e =>
        rw [skipLoop_err d p dep e hlt hstep] at h
        simp at h
      | ok q =>
        obtain ⟨i2, dep2⟩ := q
        rw [skipLoop_step d p dep i2 dep2 hlt hstep] at h
        have hadv := skipStep_advance d p dep i2 dep2 hstep
        by_cases hbig : 2 ^ 63 ≤ i2
        · rw [if_pos hbig] at h
          simp at h
        · rw [if_neg hbig] at h
          by_cases hdep : dep2 = 0
          · rw [if_pos hdep] at h
            simp only [Except.ok.injEq] at h
            have hstep2 := skipStep_take d p dep i2 dep2 n hstep (by omega) hnd
            have hlt2 : p < (d.take n).length := by
              simp only [List.length_take]
              omega
            rw [skipLoop_step (d.take n) p dep i2 dep2 hlt2 hstep2]
            rw [if_neg hbig, if_pos hdep, h]
          · rw [if_neg hdep] at h
            have hgt := skipLoop_gt d i2 dep2 sk h
            have hstep2 := skipStep_take d p dep i2 dep2 n hstep (by omega) hnd
            have hlt2 : p < (d.take n).length := by
              simp only [List.length_take]
              omega
            rw [skipLoop_step (d.take n) p dep i2 dep2 hlt2 hstep2]
            rw [if_neg hbig, if_neg hdep]
            exact ih i2 dep2 sk n (by omega) h (by omega) hnd
    · rw [skipLoop_exit d p dep hlt] at h
      simp at h

/-- Truncating a full skip run: the truncated run either fails with the
truncated-input error or returns the very same count. -/
theorem skipLoop_trunc_fuel (d : Bytes) : ∀ (fuel p dep sk n : Nat),
    d.length - p < fuel → skipLoop d p dep = .ok sk → p ≤ n → n ≤ d.length →
    skipLoop (d.take n) p dep = .ok sk ∨
      skipLoop (d.take n) p dep = .error .unexpectedEOF := by
  intro fuel
  induction fuel with
  | zero =>
    intro p dep sk n hf h hp hnd
    omega
  | succ f ih =>
    intro p dep sk n hf h hp hnd
    by_cases hpn : p < n
    · by_cases hlt : p < d.length
      · cases hstep : skipStep d p dep with
        | error e =>
          rw [skipLoop_err d p dep e hlt hstep] at h
          simp at h
        | ok q =>
          obtain ⟨i2, dep2⟩ := q
          rw [skipLoop_step d p dep i2 dep2 hlt hstep] at h
          have hadv := skipStep_advance d p dep i2 dep2 hstep
          have hlt2 : p < (d.take n).length := by
            simp only [List.length_take]
            omega
          cases skipStep_trunc d p dep i2 dep2 n hstep (by omega) hnd with
          | inr htr =>
            right
            exact skipLoop_err (d.take n) p dep _ hlt2 htr
          | inl hok =>
            by_cases hbig : 2 ^ 63 ≤ i2
            · rw [if_pos hbig] at h
              simp at h
            · rw [if_neg hbig] at h
              by_cases hdep : dep2 = 0
              · rw [if_pos hdep] at h
                simp only [Except.ok.injEq] at h
                left
                rw [skipLoop_step (d.take n) p dep i2 dep2 hlt2 hok]
                rw [if_neg hbig, if_pos hdep, h]
              · rw [if_neg hdep] at h
                rw [skipLoop_step (d.take n) p dep i2 dep2 hlt2 hok]
                rw [if_neg hbig, if_neg hdep]
                by_cases hi2n : i2 ≤ n
                · exact ih i2 dep2 sk n (by omega) h hi2n hnd
                · right
                  exact skipLoop_exit (d.take n) i2 dep2
                    (by simp only [List.length_take]; omega)
      · rw [skipLoop_exit d p dep hlt] at h
        simp at h
    · right
      exact skipLoop_exit (d.take n) p dep
        (by simp only [List.length_take]; omega)

/-- Take-invariance of skipCommon. -/
theorem skipCommon_take (xs : Bytes) (sk c : Nat)
    (h : skipCommon xs = .ok sk) (hsk : sk ≤ c) (hc : c ≤ xs.length) :
    skipCommon (xs.take c) = .ok sk :=
  skipLoop_take_fuel xs (xs.length + 1) 0 0 sk c (by omega) h hsk hc

/-- Truncating skipCommon: same count or the truncated-input error. -/
theorem skipCommon_trunc (xs : Bytes) (sk c : Nat)
    (h : skipCommon xs = .ok sk) (hc : c ≤ xs.length) :
    skipCommon (xs.take c) = .ok sk ∨
      skipCommon (xs.take c) = .error .unexpectedEOF :=
  skipLoop_trunc_fuel xs (xs.length + 1) 0 0 sk c (by omega) h (by omega) hc

/-- skipCommon consumes at least the tag varint at the front. -/
theorem skipCommon_ge_tag (xs : Bytes) (w k sk : Nat)
    (hw : readVarint xs 0 0 = .ok (w, k)) (hs : skipCommon xs = .ok sk) :
    k ≤ sk := by
  unfold skipCommon at hs
  by_cases hlt : 0 < xs.length
  · cases hstep : skipStep xs 0 0 with
    | error e =>
      rw [skipLoop_err xs 0 0 e hlt hstep] at hs
      simp at hs
    | ok q =>
      obtain ⟨i2, dep2⟩ := q
      have hge := skipStep_ge_tag xs 0 0 i2 dep2 w k hstep (by simpa using hw)
      rw [skipLoop_step xs 0 0 i2 dep2 hlt hstep] at hs
      by_cases hbig : 2 ^ 63 ≤ i2
      · rw [if_pos hbig] at hs
        simp at hs
      · rw [if_neg hbig] at hs
        by_cases hdep : dep2 = 0
        · rw [if_pos hdep] at hs
          simp only [Except.ok.injEq] at hs
          omega
        · rw [if_neg hdep] at hs
          have := skipLoop_gt xs i2 dep2 sk hs
          omega
  · rw [skipLoop_exit xs 0 0 hlt] at hs
    simp at hs

/-- Take-invariance of a length-delimited field read. -/
theorem ldField_take (d : Bytes) (i k post n : Nat) (sl : Bytes)
    (h : ldField d i k = .ok (post, sl)) (hpost : post ≤ n)
    (hnd : n ≤ d.length) : ldField (d.take n) i k = .ok (post, sl) := by
  rw [ldField] at h
  split at h
  · simp at h
  · rename_i v0 k2 hrv
    have hk2 := readVarint_consumed _ _ _ _ _ hrv
    split at h
    · simp at h
    · rename_i hv63
      split at h
      · simp at h
      · rename_i hpost63
        split at h
        · simp at h
        · rename_i hgt
          simp only [Except.ok.injEq, Prod.mk.injEq] at h
          have hrv2 : readVarint ((d.take n).drop (i + k)) 0 0
              = .ok (v0, k2) := by
            rw [List.drop_take]
            exact readVarint_take _ _ _ _ _ _ hrv (by omega)
          rw [ldField, hrv2]
          dsimp only
          rw [if_neg hv63, if_neg hpost63]
          rw [if_neg (by simp only [List.length_take]; omega :
            ¬ i + k + k2 + v0 > (d.take n).length)]
          simp only [Except.ok.injEq, Prod.mk.injEq]
          refine ⟨by omega, ?_⟩
          rw [List.drop_take, List.take_take, min_eq_left (by omega)]
          exact h.2

/-- Truncating a length-delimited field read strictly inside the field
yields the truncated-input error. -/
theorem ldField_trunc (d : Bytes) (i k post n : Nat) (sl : Bytes)
    (h : ldField d i k = .ok (post, sl)) (htag : i + k ≤ n) (hn : n < post)
    (hnd : n ≤ d.length) : ldField (d.take n) i k = .error .unexpectedEOF := by
  rw [ldField] at h
  split at h
  · simp at h
  · rename_i v0 k2 hrv
    have hk2 := readVarint_consumed _ _ _ _ _ hrv
    split at h
    · simp at h
    · rename_i hv63
      split at h
      · simp at h
      · rename_i hpost63
        split at h
        · simp at h
        · rename_i hgt
          simp only [Except.ok.injEq, Prod.mk.injEq] at h
          by_cases hfit : i + k + k2 ≤ n
          · have hrv2 : readVarint ((d.take n).drop (i + k)) 0 0
                = .ok (v0, k2) := by
              rw [List.drop_take]
              exact readVarint_take _ _ _ _ _ _ hrv (by omega)
            rw [ldField, hrv2]
            dsimp only
            rw [if_neg hv63, if_neg hpost63]
            rw [if_pos (by simp only [List.length_take]; omega :
              i + k + k2 + v0 > (d.take n).length)]
          · have hrv2 : readVarint ((d.take n).drop (i + k)) 0 0
                = .error .unexpectedEOF := by
              rw [List.drop_take]
              exact readVarint_trunc _ _ _ _ _ _ hrv (by omega)
            rw [ldField, hrv2]

/-- Take-invariance of an unknown-field skip. -/
theorem unknownField_take (d : Bytes) (i post n : Nat) (raw : Bytes)
    (h : unknownField d i = .ok (post, raw)) (hpost : post ≤ n)
    (hnd : n ≤ d.length) : unknownField (d.take n) i = .ok (post, raw) := by
  rw [unknownField] at h
  split at h
  · simp at h
  · rename_i skippy hsk
    have hskpos := skipCommon_pos _ _ hsk
    split at h
    · simp at h
    · rename_i h63
      split at h
      · simp at h
      · rename_i hgt
        simp only [Except.ok.injEq, Prod.mk.injEq] at h
        have hsk2 : skipCommon ((d.take n).drop i) = .ok skippy := by
          rw [List.drop_take]
          exact skipCommon_take _ _ _ hsk (by omega) (by simp; omega)
        rw [unknownField, hsk2]
        dsimp only
        rw [if_neg h63]
        rw [if_neg (by simp only [List.length_take]; omega :
          ¬ i + skippy > (d.take n).length)]
        simp only [Except.ok.injEq, Prod.mk.injEq]
        refine ⟨h.1, ?_⟩
        rw [List.drop_take, List.take_take, min_eq_left (by omega)]
        exact h.2

/-- Truncating an unknown-field skip strictly inside the field yields the
truncated-input error. -/
theorem unknownField_trunc (d : Bytes) (i post n : Nat) (raw : Bytes)
    (h : unknownField d i = .ok (post, raw)) (hi : i ≤ n) (hn : n < post)
    (hnd : n ≤ d.length) : unknownField (d.take n) i = .error .unexpectedEOF := by
  rw [unknownField] at h
  split at h
  · simp at h
  · rename_i skippy hsk
    have hskpos := skipCommon_pos _ _ hsk
    split at h
    · simp at h
    · rename_i h63
      split at h
      · simp at h
      · rename_i hgt
        simp only [Except.ok.injEq, Prod.mk.injEq] at h
        cases skipCommon_trunc (d.drop i) skippy (n - i) hsk (by simp; omega) with
        | inl hok =>
          have hsk2 : skipCommon ((d.take n).drop i) = .ok skippy := by
            rw [List.drop_take]
            exact hok
          rw [unknownField, hsk2]
          dsimp only
          rw [if_neg h63]
          rw [if_pos (by simp only [List.length_take]; omega :
            i + skippy > (d.take n).length)]
        | inr heof =>
          have hsk2 : skipCommon ((d.take n).drop i)
              = .error .unexpectedEOF := by
            rw [List.drop_take]
            exact heof
          rw [unknownField, hsk2]

/-- An unknown-field skip consumes at least the tag varint. -/
theorem unknownField_ge_tag (d : Bytes) (i post w k : Nat) (raw : Bytes)
    (h : unknownField d i = .ok (post, raw))
    (hw : readVarint (d.drop i) 0 0 = .ok (w, k)) : i + k ≤ post := by
  rw [unknownField] at h
  split at h
  · simp at h
  · rename_i skippy hsk
    have := skipCommon_ge_tag _ _ _ _ hw hsk
    split at h
    · simp at h
    · split at h
      · simp at h
      · simp only [Except.ok.injEq, Prod.mk.injEq] at h
        omega

/-- Take-invariance of one AdminConfig loop iteration. -/
theorem acStep_take (d : Bytes) (i n i2 : Nat) (m m2 : AdminConfig)
    (h : acStep d i m = .ok (i2, m2)) (hpost : i2 ≤ n)
    (hnd : n ≤ d.length) : acStep (d.take n) i m = .ok (i2, m2) := by
  rw [acStep] at h
  split at h
  · simp at h
  · rename_i wire k hw
    have hk := readVarint_consumed _ _ _ _ _ hw
    split at h
    · simp at h
    · rename_i h4
      split at h
      · simp at h
      · rename_i hpos
        split at h
        · rename_i hf1
          split at h
          · simp at h
          · rename_i hwt
            split at h
            · simp at h
            · rename_i post sl hld
              simp only [Except.ok.injEq, Prod.mk.injEq] at h
              have hb := ldField_bounds _ _ _ _ _ hld
              have htag : readVarint ((d.take n).drop i) 0 0
                  = .ok (wire, k) := by
                rw [List.drop_take]
                exact readVarint_take _ _ _ _ _ _ hw (by omega)
              have hld2 := ldField_take d i k post n sl hld (by omega) hnd
              rw [acStep, htag]
              dsimp only
              rw [if_neg h4, if_neg hpos, if_pos hf1, if_neg hwt, hld2]
              dsimp only
              simp only [Except.ok.injEq, Prod.mk.injEq]
              exact h
        · rename_i hf1
          split at h
          · simp at h
          · rename_i post raw hun
            simp only [Except.ok.injEq, Prod.mk.injEq] at h
            have hb := unknownField_bounds _ _ _ _ hun
            have hge := unknownField_ge_tag d i post wire k raw hun hw
            have htag : readVarint ((d.take n).drop i) 0 0
                = .ok (wire, k) := by
              rw [List.drop_take]
              exact readVarint_take _ _ _ _ _ _ hw (by omega)
            have hun2 := unknownField_take d i post n raw hun (by omega) hnd
            rw [acStep, htag]
            dsimp only
            rw [if_neg h4, if_neg hpos, if_neg hf1, hun2]
            dsimp only
            simp only [Except.ok.injEq, Prod.mk.injEq]
            exact h

/-- Truncating one AdminConfig loop iteration strictly inside the field
read yields the truncated-input error. -/
theorem acStep_trunc (d : Bytes) (i n i2 : Nat) (m m2 : AdminConfig)
    (h : acStep d i m = .ok (i2, m2)) (hi : i ≤ n) (hn : n < i2)
    (hnd : n ≤ d.length) : acStep (d.take n) i m = .error .unexpectedEOF := by
  rw [acStep] at h
  split at h
  · simp at h
  · rename_i wire k hw
    have hk := readVarint_consumed _ _ _ _ _ hw
    by_cases hfit : i + k ≤ n
    · have htag : readVarint ((d.take n).drop i) 0 0 = .ok (wire, k) := by
        rw [List.drop_take]
        exact readVarint_take _ _ _ _ _ _ hw (by omega)
      split at h
      · simp at h
      · rename_i h4
        split at h
        · simp at h
        · rename_i hpos
          split at h
          · rename_i hf1
            split at h
            · simp at h
            · rename_i hwt
              split at h
              · simp at h
              · rename_i post sl hld
                simp only [Except.ok.injEq, Prod.mk.injEq] at h
                have hld2 := ldField_trunc d i k post n sl hld hfit
                  (by omega) hnd
                rw [acStep, htag]
                dsimp only
                rw [if_neg h4, if_neg hpos, if_pos hf1, if_neg hwt, hld2]
          · rename_i hf1
            split at h
            · simp at h
            · rename_i post raw hun
              simp only [Except.ok.injEq, Prod.mk.injEq] at h
              have hun2 := unknownField_trunc d i post n raw hun hi
                (by omega) hnd
              rw [acStep, htag]
              dsimp only
              rw [if_neg h4, if_neg hpos, if_neg hf1, hun2]
    · have htag : readVarint ((d.take n).drop i) 0 0
          = .error .unexpectedEOF := by
        rw [List.drop_take]
        exact readVarint_trunc _ _ _ _ _ _ hw (by omega)
      rw [acStep, htag]

/-- Take-invariance of one TapDSConfig loop iteration. -/
theorem tdsStep_take (d : Bytes) (i n i2 : Nat) (m m2 : TapDSConfig)
    (h : tdsStep d i m = .ok (i2, m2)) (hpost : i2 ≤ n)
    (hnd : n ≤ d.length) : tdsStep (d.take n) i m = .ok (i2, m2) := by
  rw [tdsStep] at h
  split at h
  · simp at h
  · rename_i wire k hw
    have hk := readVarint_consumed _ _ _ _ _ hw
    split at h
    · simp at h
    · rename_i h4
      split at h
      · simp at h
      · rename_i hpos
        split at h
        · rename_i hf1
          split at h
          · simp at h
          · rename_i hwt
            split at h
            · simp at h
            · rename_i post sl hld
              simp only [Except.ok.injEq, Prod.mk.injEq] at h
              have hb := ldField_bounds _ _ _ _ _ hld
              have htag : readVarint ((d.take n).drop i) 0 0
                  = .ok (wire, k) := by
                rw [List.drop_take]
                exact readVarint_take _ _ _ _ _ _ hw (by omega)
              have hld2 := ldField_take d i k post n sl hld (by omega) hnd
              rw [tdsStep, htag]
              dsimp only
              rw [if_neg h4, if_neg hpos, if_pos hf1, if_neg hwt, hld2]
              dsimp only
              simp only [Except.ok.injEq, Prod.mk.injEq]
              exact h
        · rename_i hf1
          split at h
          · rename_i hf2
            split at h
            · simp at h
            · rename_i hwt
              split at h
              · simp at h
              · rename_i post sl hld
                simp only [Except.ok.injEq, Prod.mk.injEq] at h
                have hb := ldField_bounds _ _ _ _ _ hld
                have htag : readVarint ((d.take n).drop i) 0 0
                    = .ok (wire, k) := by
                  rw [List.drop_take]
                  exact readVarint_take _ _ _ _ _ _ hw (by omega)
                have hld2 := ldField_take d i k post n sl hld (by omega) hnd
                rw [tdsStep, htag]
                dsimp only
                rw [if_neg h4, if_neg hpos, if_neg hf1, if_pos hf2,
                  if_neg hwt, hld2]
                dsimp only
                simp only [Except.ok.injEq, Prod.mk.injEq]
                exact h
          · rename_i hf2
            split at h
            · simp at h
            · rename_i post raw hun
              simp only [Except.ok.injEq, Prod.mk.injEq] at h
              have hb := unknownField_bounds _ _ _ _ hun
              have hge := unknownField_ge_tag d i post wire k raw hun hw
              have htag : readVarint ((d.take n).drop i) 0 0
                  = .ok (wire, k) := by
                rw [List.drop_take]
                exact readVarint_take _ _ _ _ _ _ hw (by omega)
              have hun2 := unknownField_take d i post n raw hun (by omega) hnd
              rw [tdsStep, htag]
              dsimp only
              rw [if_neg h4, if_neg hpos, if_neg hf1, if_neg hf2, hun2]
              dsimp only
              simp only [Except.ok.injEq, Prod.mk.injEq]
              exact h

/-- Truncating one TapDSConfig loop iteration strictly inside the field
read yields the truncated-input error. -/
theorem tdsStep_trunc (d : Bytes) (i n i2 : Nat) (m m2 : TapDSConfig)
    (h : tdsStep d i m = .ok (i2, m2)) (hi : i ≤ n) (hn : n < i2)
    (hnd : n ≤ d.length) : tdsStep (d.take n) i m = .error .unexpectedEOF := by
  rw [tdsStep] at h
  split at h
  · simp at h
  · rename_i wire k hw
    have hk := readVarint_consumed _ _ _ _ _ hw
    by_cases hfit : i + k ≤ n
    · have htag : readVarint ((d.take n).drop i) 0 0 = .ok (wire, k) := by
        rw [List.drop_take]
        exact readVarint_take _ _ _ _ _ _ hw (by omega)
      split at h
      · simp at h
      · rename_i h4
        split at h
        · simp at h
        · rename_i hpos
          split at h
          · rename_i hf1
            split at h
            · simp at h
            · rename_i hwt
              split at h
              · simp at h
              · rename_i post sl hld
                simp only [Except.ok.injEq, Prod.mk.injEq] at h
                have hld2 := ldField_trunc d i k post n sl hld hfit
                  (by omega) hnd
                rw [tdsStep, htag]
                dsimp only
                rw [if_neg h4, if_neg hpos, if_pos hf1, if_neg hwt, hld2]
          · rename_i hf1
            split at h
            · rename_i hf2
              split at h
              · simp at h
              · rename_i hwt
                split at h
                · simp at h
                · rename_i post sl hld
                  simp only [Except.ok.injEq, Prod.mk.injEq] at h
                  have hld2 := ldField_trunc d i k post n sl hld hfit
                    (by omega) hnd
                  rw [tdsStep, htag]
                  dsimp only
                  rw [if_neg h4, if_neg hpos, if_neg hf1, if_pos hf2,
                    if_neg hwt, hld2]
            · rename_i hf2
              split at h
              · simp at h
              · rename_i post raw hun
                simp only [Except.ok.injEq, Prod.mk.injEq] at h
                have hun2 := unknownField_trunc d i post n raw hun hi
                  (by omega) hnd
                rw [tdsStep, htag]
                dsimp only
                rw [if_neg h4, if_neg hpos, if_neg hf1, if_neg hf2, hun2]
    · have htag : readVarint ((d.take n).drop i) 0 0
          = .error .unexpectedEOF := by
        rw [List.drop_take]
        exact readVarint_trunc _ _ _ _ _ _ hw (by omega)
      rw [tdsStep, htag]

/-- Take-invariance of one CommonExtensionConfig loop iteration. -/
theorem cecStep_take (d : Bytes) (i n i2 : Nat)
    (m m2 : CommonExtensionConfig)
    (h : cecStep d i m = .ok (i2, m2)) (hpost : i2 ≤ n)
    (hnd : n ≤ d.length) : cecStep (d.take n) i m = .ok (i2, m2) := by
  rw [cecStep] at h
  split at h
  · simp at h
  · rename_i wire k hw
    have hk := readVarint_consumed _ _ _ _ _ hw
    split at h
    · simp at h
    · rename_i h4
      split at h
      · simp at h
      · rename_i hpos
        split at h
        · rename_i hf1
          split at h
          · simp at h
          · rename_i hwt
            split at h
            · simp at h
            · rename_i post sl hld
              split at h
              · simp at h
              · rename_i a hA
                simp only [Except.ok.injEq, Prod.mk.injEq] at h
                have hb := ldField_bounds _ _ _ _ _ hld
                have htag : readVarint ((d.take n).drop i) 0 0
                    = .ok (wire, k) := by
                  rw [List.drop_take]
                  exact readVarint_take _ _ _ _ _ _ hw (by omega)
                have hld2 := ldField_take d i k post n sl hld (by omega) hnd
                rw [cecStep, htag]
                dsimp only
                rw [if_neg h4, if_neg hpos, if_pos hf1, if_neg hwt, hld2]
                dsimp only
                rw [hA]
                dsimp only
                simp only [Except.ok.injEq, Prod.mk.injEq]
                exact h
        · rename_i hf1
          split at h
          · rename_i hf2
            split at h
            · simp at h
            · rename_i hwt
              split at h
              · simp at h
              · rename_i post sl hld
                simp only [Except.ok.injEq, Prod.mk.injEq] at h
                have hb := ldField_bounds _ _ _ _ _ hld
                have htag : readVarint ((d.take n).drop i) 0 0
                    = .ok (wire, k) := by
                  rw [List.drop_take]
                  exact readVarint_take _ _ _ _ _ _ hw (by omega)
                have hld2 := ldField_take d i k post n sl hld (by omega) hnd
                rw [cecStep, htag]
                dsimp only
                rw [if_neg h4, if_neg hpos, if_neg hf1, if_pos hf2,
                  if_neg hwt, hld2]
                dsimp only
                simp only [Except.ok.injEq, Prod.mk.injEq]
                exact h
          · rename_i hf2
            split at h
            · rename_i hf3
              split at h
              · simp at h
              · rename_i hwt
                split at h
                · simp at h
                · rename_i post sl hld
                  split at h
                  · simp at h
                  · rename_i t hT
                    simp only [Except.ok.injEq, Prod.mk.injEq] at h
                    have hb := ldField_bounds _ _ _ _ _ hld
                    have htag : readVarint ((d.take n).drop i) 0 0
                        = .ok (wire, k) := by
                      rw [List.drop_take]
                      exact readVarint_take _ _ _ _ _ _ hw (by omega)
                    have hld2 := ldField_take d i k post n sl hld
                      (by omega) hnd
                    rw [cecStep, htag]
                    dsimp only
                    rw [if_neg h4, if_neg hpos, if_neg hf1, if_neg hf2,
                      if_pos hf3, if_neg hwt, hld2]
                    dsimp only
                    rw [hT]
                    dsimp only
                    simp only [Except.ok.injEq, Prod.mk.injEq]
                    exact h
            · rename_i hf3
              split at h
              · simp at h
              · rename_i post raw hun
                simp only [Except.ok.injEq, Prod.mk.injEq] at h
                have hb := unknownField_bounds _ _ _ _ hun
                have hge := unknownField_ge_tag d i post wire k raw hun hw
                have htag : readVarint ((d.take n).drop i) 0 0
                    = .ok (wire, k) := by
                  rw [List.drop_take]
                  exact readVarint_take _ _ _ _ _ _ hw (by omega)
                have hun2 := unknownField_take d i post n raw hun
                  (by omega) hnd
                rw [cecStep, htag]
                dsimp only
                rw [if_neg h4, if_neg hpos, if_neg hf1, if_neg hf2,
                  if_neg hf3, hun2]
                dsimp only
                simp only [Except.ok.injEq, Prod.mk.injEq]
                exact h

/-- Truncating one CommonExtensionConfig loop iteration strictly inside
the field read yields the truncated-input error. -/
theorem cecStep_trunc (d : Bytes) (i n i2 : Nat)
    (m m2 : CommonExtensionConfig)
    (h : cecStep d i m = .ok (i2, m2)) (hi : i ≤ n) (hn : n < i2)
    (hnd : n ≤ d.length) : cecStep (d.take n) i m = .error .unexpectedEOF := by
  rw [cecStep] at h
  split at h
  · simp at h
  · rename_i wire k hw
    have hk := readVarint_consumed _ _ _ _ _ hw
    by_cases hfit : i + k ≤ n
    · have htag : readVarint ((d.take n).drop i) 0 0 = .ok (wire, k) := by
        rw [List.drop_take]
        exact readVarint_take _ _ _ _ _ _ hw (by omega)
      split at h
      · simp at h
      · rename_i h4
        split at h
        · simp at h
        · rename_i hpos
          split at h
          · rename_i hf1
            split at h
            · simp at h
            · rename_i hwt
              split at h
              · simp at h
              · rename_i post sl hld
                split at h
                · simp at h
                · rename_i a hA
                  simp only [Except.ok.injEq, Prod.mk.injEq] at h
                  have hld2 := ldField_trunc d i k post n sl hld hfit
                    (by omega) hnd
                  rw [cecStep, htag]
                  dsimp only
                  rw [if_neg h4, if_neg hpos, if_pos hf1, if_neg hwt, hld2]
          · rename_i hf1
            split at h
            · rename_i hf2
              split at h
              · simp at h
              · rename_i hwt
                split at h
                · simp at h
                · rename_i post sl hld
                  simp only [Except.ok.injEq, Prod.mk.injEq] at h
                  have hld2 := ldField_trunc d i k post n sl hld hfit
                    (by omega) hnd
                  rw [cecStep, htag]
                  dsimp only
                  rw [if_neg h4, if_neg hpos, if_neg hf1, if_pos hf2,
                    if_neg hwt, hld2]
            · rename_i hf2
              split at h
              · rename_i hf3
                split at h
                · simp at h
                · rename_i hwt
                  split at h
                  · simp at h
                  · rename_i post sl hld
                    split at h
                    · simp at h
                    · rename_i t hT
                      simp only [Except.ok.injEq, Prod.mk.injEq] at h
                      have hld2 := ldField_trunc d i k post n sl hld hfit
                        (by omega) hnd
                      rw [cecStep, htag]
                      dsimp only
                      rw [if_neg h4, if_neg hpos, if_neg hf1, if_neg hf2,
                        if_pos hf3, if_neg hwt, hld2]
              · rename_i hf3
                split at h
                · simp at h
                · rename_i post raw hun
                  simp only [Except.ok.injEq, Prod.mk.injEq] at h
                  have hun2 := unknownField_trunc d i post n raw hun hi
                    (by omega) hnd
                  rw [cecStep, htag]
                  dsimp only
                  rw [if_neg h4, if_neg hpos, if_neg hf1, if_neg hf2,
                    if_neg hf3, hun2]
    · have htag : readVarint ((d.take n).drop i) 0 0
          = .error .unexpectedEOF := by
        rw [List.drop_take]
        exact readVarint_trunc _ _ _ _ _ _ hw (by omega)
      rw [cecStep, htag]

/-- Truncating a successful AdminConfig decode loop yields either the
truncated-input error or some successful decode (fuelled induction). -/
theorem acLoop_cut_fuel : ∀ (fuel : Nat) (d : Bytes) (i : Nat)
    (m mf : AdminConfig) (n : Nat), d.length - i < fuel →
    acLoop d i m = .ok mf → i ≤ n → n ≤ d.length →
    acLoop (d.take n) i m = .error .unexpectedEOF ∨
      ∃ mf2, acLoop (d.take n) i m = .ok mf2 := by
  intro fuel
  induction fuel with
  | zero =>
    intro d i m mf n hfuel h hi hnd
    omega
  | succ fuel ih =>
    intro d i m mf n hfuel h hi hnd
    by_cases hlt : i < d.length
    · cases hstep : acStep d i m with
      | error e =>
        rw [acLoop_err d i m e hlt hstep] at h
        simp at h
      | ok p =>
        obtain ⟨i2, m2⟩ := p
        rw [acLoop_step d i m i2 m2 hlt hstep] at h
        have hadv := acStep_advance d i m i2 m2 hstep
        by_cases hin : i < n
        · by_cases hi2 : i2 ≤ n
          · have hstep2 := acStep_take d i n i2 m m2 hstep hi2 hnd
            have hlt2 : i < (d.take n).length := by
              simp only [List.length_take]
              omega
            rw [acLoop_step (d.take n) i m i2 m2 hlt2 hstep2]
            exact ih d i2 m2 mf n (by omega) h hi2 hnd
          · have hstep2 := acStep_trunc d i n i2 m m2 hstep (by omega)
              (by omega) hnd
            left
            exact acLoop_err (d.take n) i m _
              (by simp only [List.length_take]; omega) hstep2
        · have hex := acLoop_exit (d.take n) i m
            (by simp only [List.length_take]; omega)
          right
          refine ⟨m, ?_⟩
          rw [hex, if_neg (by simp only [List.length_take]; omega)]
    · have hneq : n = d.length := by omega
      right
      refine ⟨mf, ?_⟩
      rw [hneq, List.take_length]
      exact h

/-- Truncating a successful TapDSConfig decode loop yields either the
truncated-input error or some successful decode (fuelled induction). -/
theorem tdsLoop_cut_fuel : ∀ (fuel : Nat) (d : Bytes) (i : Nat)
    (m mf : TapDSConfig) (n : Nat), d.length - i < fuel →
    tdsLoop d i m = .ok mf → i ≤ n → n ≤ d.length →
    tdsLoop (d.take n) i m = .error .unexpectedEOF ∨
      ∃ mf2, tdsLoop (d.take n) i m = .ok mf2 := by
  intro fuel
  induction fuel with
  | zero =>
    intro d i m mf n hfuel h hi hnd
    omega
  | succ fuel ih =>
    intro d i m mf n hfuel h hi hnd
    by_cases hlt : i < d.length
    · cases hstep : tdsStep d i m with
      | error e =>
        rw [tdsLoop_err d i m e hlt hstep] at h
        simp at h
      | ok p =>
        obtain ⟨i2, m2⟩ := p
        rw [tdsLoop_step d i m i2 m2 hlt hstep] at h
        have hadv := tdsStep_advance d i m i2 m2 hstep
        by_cases hin : i < n
        · by_cases hi2 : i2 ≤ n
          · have hstep2 := tdsStep_take d i n i2 m m2 hstep hi2 hnd
            have hlt2 : i < (d.take n).length := by
              simp only [List.length_take]
              omega
            rw [tdsLoop_step (d.take n) i m i2 m2 hlt2 hstep2]
            exact ih d i2 m2 mf n (by omega) h hi2 hnd
          · have hstep2 := tdsStep_trunc d i n i2 m m2 hstep (by omega)
              (by omega) hnd
            left
            exact tdsLoop_err (d.take n) i m _
              (by simp only [List.length_take]; omega) hstep2
        · have hex := tdsLoop_exit (d.take n) i m
            (by simp only [List.length_take]; omega)
          right
          refine ⟨m, ?_⟩
          rw [hex, if_neg (by simp only [List.length_take]; omega)]
    · have hneq : n = d.length := by omega
      right
      refine ⟨mf, ?_⟩
      rw [hneq, List.take_length]
      exact h

/-- Truncating a successful CommonExtensionConfig decode loop yields
either the truncated-input error or some successful decode (fuelled
induction). -/
theorem cecLoop_cut_fuel : ∀ (fuel : Nat) (d : Bytes) (i : Nat)
    (m mf : CommonExtensionConfig) (n : Nat), d.length - i < fuel →
    cecLoop d i m = .ok mf → i ≤ n → n ≤ d.length →
    cecLoop (d.take n) i m = .error .unexpectedEOF ∨
      ∃ mf2, cecLoop (d.take n) i m = .ok mf2 := by
  intro fuel
  induction fuel with
  | zero =>
    intro d i m mf n hfuel h hi hnd
    omega
  | succ fuel ih =>
    intro d i m mf n hfuel h hi hnd
    by_cases hlt : i < d.length
    · cases hstep : cecStep d i m with
      | error e =>
        rw [cecLoop_err d i m e hlt hstep] at h
        simp at h
      | ok p =>
        obtain ⟨i2, m2⟩ := p
        rw [cecLoop_step d i m i2 m2 hlt hstep] at h
        have hadv := cecStep_advance d i m i2 m2 hstep
        by_cases hin : i < n
        · by_cases hi2 : i2 ≤ n
          · have hstep2 := cecStep_take d i n i2 m m2 hstep hi2 hnd
            have hlt2 : i < (d.take n).length := by
              simp only [List.length_take]
              omega
            rw [cecLoop_step (d.take n) i m i2 m2 hlt2 hstep2]
            exact ih d i2 m2 mf n (by omega) h hi2 hnd
          · have hstep2 := cecStep_trunc d i n i2 m m2 hstep (by omega)
              (by omega) hnd
            left
            exact cecLoop_err (d.take n) i m _
              (by simp only [List.length_take]; omega) hstep2
        · have hex := cecLoop_exit (d.take n) i m
            (by simp only [List.length_take]; omega)
          right
          refine ⟨m, ?_⟩
          rw [hex, if_neg (by simp only [List.length_take]; omega)]
    · have hneq : n = d.length := by omega
      right
      refine ⟨mf, ?_⟩
      rw [hneq, List.take_length]
      exact h

/-- Truncating any successfully decodable AdminConfig buffer yields the
truncated-input error or some successful decode. -/
theorem adminConfig_cut (d : Bytes) (mf : AdminConfig) (n : Nat)
    (h : AdminConfig.Unmarshal d = .ok mf) (hn : n ≤ d.length) :
    AdminConfig.Unmarshal (d.take n) = .error .unexpectedEOF ∨
      ∃ mf2, AdminConfig.Unmarshal (d.take n) = .ok mf2 := by
  rw [AdminConfig.Unmarshal] at h ⊢
  exact acLoop_cut_fuel (d.length + 1) d 0 ⟨[], []⟩ mf n (by omega) h
    (by omega) hn

/-- Truncating any successfully decodable TapDSConfig buffer yields the
truncated-input error or some successful decode. -/
theorem tapDSConfig_cut (d : Bytes) (mf : TapDSConfig) (n : Nat)
    (h : TapDSConfig.Unmarshal d = .ok mf) (hn : n ≤ d.length) :
    TapDSConfig.Unmarshal (d.take n) = .error .unexpectedEOF ∨
      ∃ mf2, TapDSConfig.Unmarshal (d.take n) = .ok mf2 := by
  rw [TapDSConfig.Unmarshal] at h ⊢
  exact tdsLoop_cut_fuel (d.length + 1) d 0 ⟨none, [], []⟩ mf n (by omega) h
    (by omega) hn

/-- Truncating any successfully decodable CommonExtensionConfig buffer
yields the truncated-input error or some successful decode. -/
theorem commonExtensionConfig_cut (d : Bytes)
    (mf : CommonExtensionConfig) (n : Nat)
    (h : CommonExtensionConfig.Unmarshal d = .ok mf) (hn : n ≤ d.length) :
    CommonExtensionConfig.Unmarshal (d.take n) = .error .unexpectedEOF ∨
      ∃ mf2, CommonExtensionConfig.Unmarshal (d.take n) = .ok mf2 := by
  rw [CommonExtensionConfig.Unmarshal] at h ⊢
  exact cecLoop_cut_fuel (d.length + 1) d 0 ⟨none, []⟩ mf n (by omega) h
    (by omega) hn

/-- Does a field number select one of CommonExtensionConfig's oneof
branches (source cases 1, 2, 3, lines 595-700)? -/
def isKnownCec (f : Int) : Bool :=
  f == 1 || f == 2 || f == 3

/-- The field number of the active oneof variant: 1 for AdminConfig, 2 for
StaticConfig, 3 for TapdsConfig (source lines 320-382), none when no
variant is installed. -/
def variantTag : Option ConfigType → Option Int
  | none => none
  | some (.adminConfig _) => some 1
  | some (.staticConfig _) => some 2
  | some (.tapdsConfig _) => some 3

/-- The last oneof-selecting field number in a trace of decoded field
numbers, if any. -/
def lastKnown (fs : List Int) : Option Int :=
  (fs.filter isKnownCec).getLast?

/-- CommonExtensionConfig's Unmarshal loop instrumented to record the
field number of every field it reads, in encounter order. -/
def cecLoopT (dAtA : Bytes) (i : Nat) (m : CommonExtensionConfig)
    (fs : List Int) : Except PErr (CommonExtensionConfig × List Int) :=
  if h : i < dAtA.length then
    match hs : cecStep dAtA i m with
    | .error e => .error e
    | .ok (i2, m2) =>
      match readVarint (dAtA.drop i) 0 0 with
      | .error e => .error e
      | .ok (wire, _) =>
        cecLoopT dAtA i2 m2 (fs ++ [toSigned32 (wire >>> 3)])
  else if i > dAtA.length then .error .unexpectedEOF
  else .ok (m, fs)
termination_by dAtA.length - i
decreasing_by
  have := cecStep_advance dAtA i m i2 m2 hs
  omega

/-- Unfolding: cecLoopT at or past the end of the buffer. -/
theorem cecLoopT_exit (dAtA : Bytes) (i : Nat) (m : CommonExtensionConfig)
    (fs : List Int) (hge : ¬ i < dAtA.length) :
    cecLoopT dAtA i m fs =
      (if i > dAtA.length then .error .unexpectedEOF else .ok (m, fs)) := by
  rw [cecLoopT.eq_def]
  rw [dif_neg hge]

/-- Unfolding: cecLoopT after a successful iteration. -/
theorem cecLoopT_step (dAtA : Bytes) (i : Nat) (m : CommonExtensionConfig)
    (fs : List Int) (i2 : Nat) (m2 : CommonExtensionConfig)
    (wire k : Nat) (hlt : i < dAtA.length)
    (hstep : cecStep dAtA i m = .ok (i2, m2))
    (hw : readVarint (dAtA.drop i) 0 0 = .ok (wire, k)) :
    cecLoopT dAtA i m fs =
      cecLoopT dAtA i2 m2 (fs ++ [toSigned32 (wire >>> 3)]) := by
  rw [cecLoopT.eq_def, dif_pos hlt]
  split
  · rename_i e2 hs2
    rw [hstep] at hs2
    simp at hs2
  · rename_i j2 d2 hs2
    rw [hstep] at hs2
    simp only [Except.ok.injEq, Prod.mk.injEq] at hs2
    rw [hw]
    dsimp only
    rw [hs2.1, hs2.2]

/-- A successful CommonExtensionConfig iteration starts with a successful
tag-varint read. -/
theorem cecStep_tag_ok (d : Bytes) (i i2 : Nat)
    (m m2 : CommonExtensionConfig) (h : cecStep d i m = .ok (i2, m2)) :
    ∃ wire k, readVarint (d.drop i) 0 0 = .ok (wire, k) := by
  rw [cecStep] at h
  split at h
  · simp at h
  · rename_i wire k hw
    exact ⟨wire, k, hw⟩

/-- One CommonExtensionConfig iteration installs the oneof variant
matching the field number just read when that number is 1, 2 or 3, and
leaves the active variant unchanged otherwise. -/
theorem cecStep_variant (d : Bytes) (i i2 : Nat)
    (m m2 : CommonExtensionConfig) (wire k : Nat)
    (h : cecStep d i m = .ok (i2, m2))
    (hw : readVarint (d.drop i) 0 0 = .ok (wire, k)) :
    variantTag m2.ConfigType =
      (if isKnownCec (toSigned32 (wire >>> 3))
       then some (toSigned32 (wire >>> 3))
       else variantTag m.ConfigType) := by
  rw [cecStep, hw] at h
  dsimp only at h
  split at h
  · simp at h
  · rename_i h4
    split at h
    · simp at h
    · rename_i hpos
      split at h
      · rename_i hf1
        split at h
        · simp at h
        · split at h
          · simp at h
          · rename_i post sl hld
            split at h
            · simp at h
            · rename_i a hA
              simp only [Except.ok.injEq, Prod.mk.injEq] at h
              rw [← h.2, hf1]
              simp [variantTag, isKnownCec]
      · rename_i hf1
        split at h
        · rename_i hf2
          split at h
          · simp at h
          · split at h
            · simp at h
            · rename_i post sl hld
              simp only [Except.ok.injEq, Prod.mk.injEq] at h
              rw [← h.2, hf2]
              simp [variantTag, isKnownCec]
        · rename_i hf2
          split at h
          · rename_i hf3
            split at h
            · simp at h
            · split at h
              · simp at h
              · rename_i post sl hld
                split at h
                · simp at h
                · rename_i t hT
                  simp only [Except.ok.injEq, Prod.mk.injEq] at h
                  rw [← h.2, hf3]
                  simp [variantTag, isKnownCec]
          · rename_i hf3
            split at h
            · simp at h
            · rename_i post raw hun
              simp only [Except.ok.injEq, Prod.mk.injEq] at h
              rw [← h.2]
              rw [if_neg (by simp [isKnownCec]; omega)]

/-- Appending one field number to a trace updates its last
oneof-selecting entry exactly when the new number selects a branch. -/
theorem lastKnown_concat (fs : List Int) (f : Int) :
    lastKnown (fs ++ [f]) =
      (if isKnownCec f then some f else lastKnown fs) := by
  rw [lastKnown, List.filter_append]
  by_cases hf : isKnownCec f
  · rw [if_pos hf]
    simp [List.filter_cons, hf]
  · rw [if_neg hf]
    simp only [Bool.not_eq_true] at hf
    simp [List.filter_cons, hf, lastKnown]

/-- The instrumented decode loop succeeds whenever the plain loop does,
and the final active oneof variant is the one selected by the last
oneof-selecting field number of the trace (fuelled induction). -/
theorem cecLoopT_spec : ∀ (fuel : Nat) (d : Bytes) (i : Nat)
    (m mf : CommonExtensionConfig) (fs : List Int), d.length - i < fuel →
    cecLoop d i m = .ok mf →
    variantTag m.ConfigType = lastKnown fs →
    ∃ fsf, cecLoopT d i m fs = .ok (mf, fsf) ∧
      variantTag mf.ConfigType = lastKnown fsf := by
  intro fuel
  induction fuel with
  | zero =>
    intro d i m mf fs hfuel h hinv
    omega
  | succ fuel ih =>
    intro d i m mf fs hfuel h hinv
    by_cases hlt : i < d.length
    · cases hstep : cecStep d i m with
      | error e =>
        rw [cecLoop_err d i m e hlt hstep] at h
        simp at h
      | ok p =>
        obtain ⟨i2, m2⟩ := p
        rw [cecLoop_step d i m i2 m2 hlt hstep] at h
        have hadv := cecStep_advance d i m i2 m2 hstep
        obtain ⟨wire, k, hw⟩ := cecStep_tag_ok d i i2 m m2 hstep
        have hvar := cecStep_variant d i i2 m m2 wire k hstep hw
        rw [cecLoopT_step d i m fs i2 m2 wire k hlt hstep hw]
        have hinv2 : variantTag m2.ConfigType =
            lastKnown (fs ++ [toSigned32 (wire >>> 3)]) := by
          rw [hvar, lastKnown_concat]
          by_cases hknown : isKnownCec (toSigned32 (wire >>> 3))
          · rw [if_pos hknown, if_pos hknown]
          · rw [if_neg hknown, if_neg hknown]
            exact hinv
        exact ih d i2 m2 mf _ (by omega) h hinv2
    · rw [cecLoop_exit d i m hlt] at h
      rw [cecLoopT_exit d i m fs hlt]
      by_cases hgt : i > d.length
      · rw [if_pos hgt] at h
        simp at h
      · rw [if_neg hgt] at h
        rw [if_neg hgt]
        simp only [Except.ok.injEq] at h
        exact ⟨fs, by rw [h], by rw [← h]; exact hinv⟩

/-- A known AdminConfig field number with a wire type other than 2 stops
the iteration: with the group-end wire type 4 as "end group for non-group"
(checked first, source lines 866-868), otherwise as the wire-type
mismatch (source lines 877-880). -/
theorem acStep_mismatch (d : Bytes) (i : Nat) (m : AdminConfig)
    (wire k : Nat) (hw : readVarint (d.drop i) 0 0 = .ok (wire, k))
    (hknown : toSigned32 (wire >>> 3) = 1) (hwt : wire &&& 7 ≠ 2) :
    acStep d i m =
      .error (if wire &&& 7 = 4 then .endGroupForNonGroup
              else .wrongWireType) := by
  rw [acStep, hw]
  dsimp only
  by_cases h4 : wire &&& 7 = 4
  · rw [if_pos h4, if_pos h4]
  · rw [if_neg h4, if_neg h4, hknown]
    rw [if_neg (by decide : ¬ (1 : Int) ≤ 0)]
    rw [if_pos (rfl : (1 : Int) = 1)]
    rw [if_pos hwt]

/-- A known TapDSConfig field number with a wire type other than 2 stops
the iteration with the group-end or wire-type-mismatch error. -/
theorem tdsStep_mismatch (d : Bytes) (i : Nat) (m : TapDSConfig)
    (wire k : Nat) (hw : readVarint (d.drop i) 0 0 = .ok (wire, k))
    (hknown : toSigned32 (wire >>> 3) = 1 ∨ toSigned32 (wire >>> 3) = 2)
    (hwt : wire &&& 7 ≠ 2) :
    tdsStep d i m =
      .error (if wire &&& 7 = 4 then .endGroupForNonGroup
              else .wrongWireType) := by
  rw [tdsStep, hw]
  dsimp only
  by_cases h4 : wire &&& 7 = 4
  · rw [if_pos h4, if_pos h4]
  · rw [if_neg h4, if_neg h4]
    cases hknown with
    | inl hk =>
      rw [hk]
      rw [if_neg (by decide : ¬ (1 : Int) ≤ 0)]
      rw [if_pos (rfl : (1 : Int) = 1)]
      rw [if_pos hwt]
    | inr hk =>
      rw [hk]
      rw [if_neg (by decide : ¬ (2 : Int) ≤ 0)]
      rw [if_neg (by decide : ¬ (2 : Int) = 1)]
      rw [if_pos (rfl : (2 : Int) = 2)]
      rw [if_pos hwt]

/-- A known CommonExtensionConfig field number with a wire type other than
2 stops the iteration with the group-end or wire-type-mismatch error. -/
theorem cecStep_mismatch (d : Bytes) (i : Nat) (m : CommonExtensionConfig)
    (wire k : Nat) (hw : readVarint (d.drop i) 0 0 = .ok (wire, k))
    (hknown : toSigned32 (wire >>> 3) = 1 ∨ toSigned32 (wire >>> 3) = 2 ∨
      toSigned32 (wire >>> 3) = 3)
    (hwt : wire &&& 7 ≠ 2) :
    cecStep d i m =
      .error (if wire &&& 7 = 4 then .endGroupForNonGroup
              else .wrongWireType) := by
  rw [cecStep, hw]
  dsimp only
  by_cases h4 : wire &&& 7 = 4
  · rw [if_pos h4, if_pos h4]
  · rw [if_neg h4, if_neg h4]
    rcases hknown with hk | hk | hk
    · rw [hk]
      rw [if_neg (by decide : ¬ (1 : Int) ≤ 0)]
      rw [if_pos (rfl : (1 : Int) = 1)]
      rw [if_pos hwt]
    · rw [hk]
      rw [if_neg (by decide : ¬ (2 : Int) ≤ 0)]
      rw [if_neg (by decide : ¬ (2 : Int) = 1)]
      rw [if_pos (rfl : (2 : Int) = 2)]
      rw [if_pos hwt]
    · rw [hk]
      rw [if_neg (by decide : ¬ (3 : Int) ≤ 0)]
      rw [if_neg (by decide : ¬ (3 : Int) = 1)]
      rw [if_neg (by decide : ¬ (3 : Int) = 2)]
      rw [if_pos (rfl : (3 : Int) = 3)]
      rw [if_pos hwt]

/-- A varint read entered with shift 64 or more fails immediately with the
overflow error (source lines 574-576). -/
theorem readVarint_shift64 (data : Bytes) (shift acc : Nat)
    (h : 64 ≤ shift) : readVarint data shift acc = .error .intOverflow := by
  rw [readVarint.eq_def, if_pos h]

/-- Unfolding one continuation byte of a varint read. -/
theorem readVarint_cont (b : Nat) (rest : Bytes) (shift acc : Nat)
    (hs : ¬ shift ≥ 64) (hb : ¬ b < 0x80) :
    readVarint (b :: rest) shift acc =
      (match readVarint rest (shift + 7)
          (acc ||| ((b &&& 0x7F) <<< shift) % 2 ^ 64) with
       | .error e => .error e
       | .ok (v, k) => .ok (v, k + 1)) := by
  rw [readVarint.eq_def, if_neg hs]
  dsimp only
  rw [if_neg hb]

/-- Ten continuation bytes in a row drive the shift to 70 and the varint
read into the overflow error, whatever follows. -/
theorem readVarint_tenCont (b0 b1 b2 b3 b4 b5 b6 b7 b8 b9 : Nat)
    (rest : Bytes) (h0 : 0x80 ≤ b0) (h1 : 0x80 ≤ b1) (h2 : 0x80 ≤ b2)
    (h3 : 0x80 ≤ b3) (h4 : 0x80 ≤ b4) (h5 : 0x80 ≤ b5) (h6 : 0x80 ≤ b6)
    (h7 : 0x80 ≤ b7) (h8 : 0x80 ≤ b8) (h9 : 0x80 ≤ b9) :
    readVarint
      (b0 :: b1 :: b2 :: b3 :: b4 :: b5 :: b6 :: b7 :: b8 :: b9 :: rest)
      0 0 = .error .intOverflow := by
  rw [readVarint_cont b0 _ 0 _ (by omega) (by omega),
    readVarint_cont b1 _ 7 _ (by omega) (by omega),
    readVarint_cont b2 _ 14 _ (by omega) (by omega),
    readVarint_cont b3 _ 21 _ (by omega) (by omega),
    readVarint_cont b4 _ 28 _ (by omega) (by omega),
    readVarint_cont b5 _ 35 _ (by omega) (by omega),
    readVarint_cont b6 _ 42 _ (by omega) (by omega),
    readVarint_cont b7 _ 49 _ (by omega) (by omega),
    readVarint_cont b8 _ 56 _ (by omega) (by omega),
    readVarint_cont b9 _ 63 _ (by omega) (by omega),
    readVarint_shift64 rest 70 _ (by omega)]

/-- A value below 128 is encoded as the single byte itself. -/
theorem putVarint_small (v : Nat) (h : v < 2 ^ 7) : putVarint v = [v] := by
  rw [putVarint]
  rw [dif_neg (by omega)]

/-- Marshal of AdminConfig with ConfigId "filter-1": tag 0x0a, length 8,
then the eight ASCII bytes. -/
theorem admin_marshal_filter :
    (AdminConfig.mk [102, 105, 108, 116, 101, 114, 45, 49] []).Marshal
      = [0x0a, 0x08, 102, 105, 108, 116, 101, 114, 45, 49] := by
  have h8 : putVarint 8 = [8] := putVarint_small 8 (by omega)
  simp [AdminConfig.Marshal, h8]

/-- Unmarshal of the empty buffer yields the fresh AdminConfig. -/
theorem admin_unmarshal_nil :
    AdminConfig.Unmarshal [] = .ok (AdminConfig.mk [] []) := by
  rw [AdminConfig.Unmarshal]
  exact acLoop_nil [] 0 _ rfl

/-- Unmarshal of the "filter-1" encoding reproduces the message. -/
theorem admin_unmarshal_filter :
    AdminConfig.Unmarshal [0x0a, 0x08, 102, 105, 108, 116, 101, 114, 45, 49]
      = .ok (AdminConfig.mk [102, 105, 108, 116, 101, 114, 45, 49] []) := by
  rw [AdminConfig.Unmarshal]
  rw [acLoop_step _ 0 _ 10
    (AdminConfig.mk [102, 105, 108, 116, 101, 114, 45, 49] [])
    (by decide) (by decide)]
  exact acLoop_nil _ 10 _ (by decide)

/-- The Size of the "filter-1" AdminConfig is ten bytes. -/
theorem admin_filter_size :
    AdminConfig.Size (some (AdminConfig.mk
      [102, 105, 108, 116, 101, 114, 45, 49] [])) = 10 := by
  have h8 : sovCommon 8 = 1 := sovCommon_small 8 (by omega)
  simp [AdminConfig.Size, h8]

/-- skipCommon over one length-delimited field of three bytes. -/
theorem skipCommon_example : skipCommon [0x22, 0x01, 0xab] = .ok 3 := by
  rw [skipCommon]
  rw [skipLoop_step [0x22, 0x01, 0xab] 0 0 3 0 (by decide) (by decide)]
  rw [if_neg (by norm_num), if_pos rfl]

/-- A buffer holding exactly one complete field with an unlisted field
number is a well-formed unknown-field store. -/
theorem wfUnknown_single (known : List Int) (u : Bytes)
    (wire k skippy : Nat)
    (hw : readVarint u 0 0 = .ok (wire, k)) (h4 : wire &&& 7 ≠ 4)
    (hpos : ¬ toSigned32 (wire >>> 3) ≤ 0)
    (hmem : toSigned32 (wire >>> 3) ∉ known)
    (hsk : skipCommon u = .ok skippy) (hlen : skippy = u.length)
    (h1 : 1 ≤ skippy) : wfUnknown known u = true := by
  cases u with
  | nil =>
    simp at hlen
    omega
  | cons b rest =>
    rw [wfUnknown]
    simp only [List.length_cons]
    rw [wfUnknownF, hw]
    dsimp only
    rw [if_neg h4, if_neg hpos, if_neg hmem, hsk]
    dsimp only
    rw [if_pos ⟨h1, by simp [← hlen]⟩]
    rw [hlen, List.drop_length]
    rw [wfUnknownF]

/-- One CommonExtensionConfig iteration over the two-byte encoding of an
empty AdminConfig branch installs that branch. -/
theorem cecStep_example : cecStep [0x0a, 0x00] 0 ⟨none, []⟩ =
    .ok (2, ⟨some (.adminConfig (some ⟨[], []⟩)), []⟩) := by
  rw [cecStep]
  rw [show readVarint (([0x0a, 0x00] : Bytes).drop 0) 0 0 = .ok (0x0a, 1)
    from by decide]
  dsimp only
  rw [if_neg (by decide), if_neg (by decide), if_pos (by decide)]
  rw [if_neg (by decide)]
  rw [show ldField [0x0a, 0x00] 0 1 = .ok (2, ([] : Bytes)) from by decide]
  dsimp only
  rw [admin_unmarshal_nil]

/-- Unmarshal of the two-byte encoding of an empty AdminConfig branch. -/
theorem cec_unmarshal_example :
    CommonExtensionConfig.Unmarshal [0x0a, 0x00]
      = .ok ⟨some (.adminConfig (some ⟨[], []⟩)), []⟩ := by
  rw [CommonExtensionConfig.Unmarshal]
  rw [cecLoop_step _ 0 _ 2 _ (by decide) cecStep_example]
  exact cecLoop_nil _ 2 _ rfl

/-- C1: for every message value of the three types, Marshal succeeds (it is
total here) and the length of the byte sequence it returns equals Size. -/
theorem marshal_length_eq_size :
    (∀ m : AdminConfig, m.Marshal.length = AdminConfig.Size (some m)) ∧
    (∀ m : TapDSConfig, m.Marshal.length = TapDSConfig.Size (some m)) ∧
    (∀ m : CommonExtensionConfig,
      m.Marshal.length = CommonExtensionConfig.Size (some m)) :=
  ⟨adminConfig_marshal_size, tapDSConfig_marshal_size,
    commonExtensionConfig_marshal_size⟩

/-- C2 (amended): Unmarshal ∘ Marshal reproduces the message field for
field for every value whose preserved unrecognized bytes are a well-formed
sequence of unknown fields, whose populated oneof wrapper (if any) holds a
non-nil, likewise valid payload, and whose Size stays below 2 ^ 63. -/
theorem unmarshal_marshal_roundtrip :
    (∀ m : AdminConfig, m.Valid → AdminConfig.Size (some m) < 2 ^ 63 →
      AdminConfig.Unmarshal m.Marshal = .ok m) ∧
    (∀ m : TapDSConfig, m.Valid → TapDSConfig.Size (some m) < 2 ^ 63 →
      TapDSConfig.Unmarshal m.Marshal = .ok m) ∧
    (∀ m : CommonExtensionConfig, m.Valid →
      CommonExtensionConfig.Size (some m) < 2 ^ 63 →
      CommonExtensionConfig.Unmarshal m.Marshal = .ok m) :=
  ⟨adminConfig_roundtrip, tapDSConfig_roundtrip,
    commonExtensionConfig_roundtrip⟩

/-- C2 witness: the round trip at AdminConfig with ConfigId "filter-1". -/
theorem unmarshal_marshal_roundtrip_witness :
    AdminConfig.Unmarshal
        (AdminConfig.mk [102, 105, 108, 116, 101, 114, 45, 49] []).Marshal
      = .ok (AdminConfig.mk [102, 105, 108, 116, 101, 114, 45, 49] []) :=
  unmarshal_marshal_roundtrip.1 _ rfl
    (by rw [admin_filter_size]; norm_num)

/-- C2 counterexample: a CommonExtensionConfig carrying the single
unrecognized byte 0 marshals to [0], and Unmarshal of [0] fails with the
illegal-tag error instead of reproducing the message. -/
theorem roundtrip_cex :
    (CommonExtensionConfig.mk none [0]).Marshal = [0] ∧
    CommonExtensionConfig.Unmarshal [0] = .error .illegalTag := by
  constructor
  · rfl
  · rw [CommonExtensionConfig.Unmarshal]
    exact cecLoop_err [0] 0 ⟨none, []⟩ .illegalTag (by decide) (by decide)

/-- C3: a well-formed run of fields with numbers outside the schema is not
rejected by Unmarshal but appended verbatim, in encounter order, to the
unrecognized-bytes store; and Marshal re-emits the preserved bytes verbatim
after the known fields. -/
theorem unknown_fields_preserved :
    (∀ u : Bytes, wfUnknown [1] u = true → u.length < 2 ^ 63 →
      AdminConfig.Unmarshal u = .ok ⟨[], u⟩) ∧
    (∀ m : AdminConfig,
      m.Marshal = (AdminConfig.mk m.ConfigId []).Marshal
        ++ m.XXX_unrecognized) ∧
    (∀ u : Bytes, wfUnknown [1, 2] u = true → u.length < 2 ^ 63 →
      TapDSConfig.Unmarshal u = .ok ⟨none, [], u⟩) ∧
    (∀ m : TapDSConfig,
      m.Marshal = (TapDSConfig.mk m.ConfigSource m.Name []).Marshal
        ++ m.XXX_unrecognized) ∧
    (∀ u : Bytes, wfUnknown [1, 2, 3] u = true → u.length < 2 ^ 63 →
      CommonExtensionConfig.Unmarshal u = .ok ⟨none, u⟩) ∧
    (∀ m : CommonExtensionConfig,
      m.Marshal = (CommonExtensionConfig.mk m.ConfigType []).Marshal
        ++ m.XXX_unrecognized) := by
  refine ⟨fun u hwf hlen => ?_, fun m => ?_, fun u hwf hlen => ?_,
    fun m => ?_, fun u hwf hlen => ?_, fun m => ?_⟩
  · rw [AdminConfig.Unmarshal]
    have h := acLoop_unknown u.length u u 0 ⟨[], []⟩ hwf (List.drop_zero u)
      (by omega) hlen
    simpa using h
  · simp [AdminConfig.Marshal]
  · rw [TapDSConfig.Unmarshal]
    have h := tdsLoop_unknown u.length u u 0 ⟨none, [], []⟩ hwf
      (List.drop_zero u) (by omega) hlen
    simpa using h
  · simp [TapDSConfig.Marshal]
  · rw [CommonExtensionConfig.Unmarshal]
    have h := cecLoop_unknown u.length u u 0 ⟨none, []⟩ hwf
      (List.drop_zero u) (by omega) hlen
    simpa using h
  · simp [CommonExtensionConfig.Marshal]

/-- C3 witness: one unknown field (number 4, wire type 2, one payload
byte) is preserved verbatim by AdminConfig.Unmarshal. -/
theorem unknown_fields_preserved_witness :
    AdminConfig.Unmarshal [0x22, 0x01, 0xab]
      = .ok ⟨[], [0x22, 0x01, 0xab]⟩ :=
  unknown_fields_preserved.1 [0x22, 0x01, 0xab]
    (wfUnknown_single [1] _ 0x22 1 3 (by decide) (by decide) (by decide)
      (by decide) skipCommon_example rfl (by decide))
    (by norm_num)

/-- C4: whenever CommonExtensionConfig.Unmarshal succeeds, the decode reads
a trace of field numbers (witnessed by the instrumented loop cecLoopT), and
the single active oneof variant of the result is exactly the one selected
by the last oneof field number (1, 2 or 3) in that trace — each such field
overwrites whatever variant was active before. -/
theorem oneof_last_field_wins (d : Bytes) (mf : CommonExtensionConfig)
    (h : CommonExtensionConfig.Unmarshal d = .ok mf) :
    ∃ fs, cecLoopT d 0 ⟨none, []⟩ [] = .ok (mf, fs) ∧
      variantTag mf.ConfigType = lastKnown fs := by
  rw [CommonExtensionConfig.Unmarshal] at h
  exact cecLoopT_spec (d.length + 1) d 0 ⟨none, []⟩ mf [] (by omega) h rfl

/-- C4 witness: decoding one AdminConfig branch field installs that
variant and the trace law holds. -/
theorem oneof_last_field_wins_witness :
    ∃ fs, cecLoopT [0x0a, 0x00] 0 ⟨none, []⟩ [] =
        .ok (⟨some (.adminConfig (some ⟨[], []⟩)), []⟩, fs) ∧
      variantTag (CommonExtensionConfig.mk
        (some (.adminConfig (some ⟨[], []⟩))) []).ConfigType = lastKnown fs :=
  oneof_last_field_wins [0x0a, 0x00] _ cec_unmarshal_example

/-- C5 (amended): truncating any successfully decodable buffer yields
either the truncated-input error or a successful decode of the prefix
(a cut at a field boundary decodes to the fields read so far); no other
error arises. -/
theorem truncated_decode_eof_or_ok :
    (∀ (d : Bytes) (mf : AdminConfig) (n : Nat),
      AdminConfig.Unmarshal d = .ok mf → n ≤ d.length →
      AdminConfig.Unmarshal (d.take n) = .error .unexpectedEOF ∨
        ∃ mf2, AdminConfig.Unmarshal (d.take n) = .ok mf2) ∧
    (∀ (d : Bytes) (mf : TapDSConfig) (n : Nat),
      TapDSConfig.Unmarshal d = .ok mf → n ≤ d.length →
      TapDSConfig.Unmarshal (d.take n) = .error .unexpectedEOF ∨
        ∃ mf2, TapDSConfig.Unmarshal (d.take n) = .ok mf2) ∧
    (∀ (d : Bytes) (mf : CommonExtensionConfig) (n : Nat),
      CommonExtensionConfig.Unmarshal d = .ok mf → n ≤ d.length →
      CommonExtensionConfig.Unmarshal (d.take n) = .error .unexpectedEOF ∨
        ∃ mf2, CommonExtensionConfig.Unmarshal (d.take n) = .ok mf2) :=
  ⟨adminConfig_cut, tapDSConfig_cut, commonExtensionConfig_cut⟩

/-- C5 witness: cutting the ten-byte "filter-1" encoding to one byte gives
the truncated-input error or a successful decode. -/
theorem truncated_decode_witness :
    AdminConfig.Unmarshal
        (([0x0a, 0x08, 102, 105, 108, 116, 101, 114, 45, 49] : Bytes).take 1)
      = .error .unexpectedEOF ∨
    ∃ mf2, AdminConfig.Unmarshal
        (([0x0a, 0x08, 102, 105, 108, 116, 101, 114, 45, 49] : Bytes).take 1)
      = .ok mf2 :=
  truncated_decode_eof_or_ok.1 _ _ 1 admin_unmarshal_filter (by norm_num)

/-- C5 counterexample: the empty strict prefix of the valid ten-byte
"filter-1" encoding does not fail with a truncated-input error — it
decodes successfully to the empty message. -/
theorem truncated_decode_cex :
    0 < (AdminConfig.mk [102, 105, 108, 116, 101, 114, 45, 49] []).Marshal.length ∧
    AdminConfig.Unmarshal
        ((AdminConfig.mk [102, 105, 108, 116, 101, 114, 45, 49] []).Marshal.take 0)
      = .ok (AdminConfig.mk [] []) := by
  constructor
  · rw [admin_marshal_filter]
    norm_num
  · rw [List.take_zero]
    exact admin_unmarshal_nil

/-- C6 (amended): a known field number with a wire type other than the
expected 2 makes Unmarshal fail — with the end-group-for-non-group error
when the wire type is 4 (that check precedes field dispatch), and with the
wire-type-mismatch error for every other wire type. -/
theorem known_field_wiretype_mismatch :
    (∀ (d : Bytes) (wire k : Nat), 0 < d.length →
      readVarint d 0 0 = .ok (wire, k) → toSigned32 (wire >>> 3) = 1 →
      wire &&& 7 ≠ 2 →
      AdminConfig.Unmarshal d =
        .error (if wire &&& 7 = 4 then .endGroupForNonGroup
                else .wrongWireType)) ∧
    (∀ (d : Bytes) (wire k : Nat), 0 < d.length →
      readVarint d 0 0 = .ok (wire, k) →
      (toSigned32 (wire >>> 3) = 1 ∨ toSigned32 (wire >>> 3) = 2) →
      wire &&& 7 ≠ 2 →
      TapDSConfig.Unmarshal d =
        .error (if wire &&& 7 = 4 then .endGroupForNonGroup
                else .wrongWireType)) ∧
    (∀ (d : Bytes) (wire k : Nat), 0 < d.length →
      readVarint d 0 0 = .ok (wire, k) →
      (toSigned32 (wire >>> 3) = 1 ∨ toSigned32 (wire >>> 3) = 2 ∨
        toSigned32 (wire >>> 3) = 3) →
      wire &&& 7 ≠ 2 →
      CommonExtensionConfig.Unmarshal d =
        .error (if wire &&& 7 = 4 then .endGroupForNonGroup
                else .wrongWireType)) := by
  refine ⟨fun d wire k h0 hw hknown hwt => ?_,
    fun d wire k h0 hw hknown hwt => ?_,
    fun d wire k h0 hw hknown hwt => ?_⟩
  · rw [AdminConfig.Unmarshal]
    exact acLoop_err d 0 _ _ h0 (acStep_mismatch d 0 _ wire k
      (by rw [List.drop_zero]; exact hw) hknown hwt)
  · rw [TapDSConfig.Unmarshal]
    exact tdsLoop_err d 0 _ _ h0 (tdsStep_mismatch d 0 _ wire k
      (by rw [List.drop_zero]; exact hw) hknown hwt)
  · rw [CommonExtensionConfig.Unmarshal]
    exact cecLoop_err d 0 _ _ h0 (cecStep_mismatch d 0 _ wire k
      (by rw [List.drop_zero]; exact hw) hknown hwt)

/-- C6 witness: field 1 with wire type 3 makes AdminConfig.Unmarshal fail
with the wire-type-mismatch error. -/
theorem known_field_wiretype_mismatch_witness :
    AdminConfig.Unmarshal [0x0b] = .error .wrongWireType := by
  have h := known_field_wiretype_mismatch.1 [0x0b] 0x0b 1 (by decide)
    (by decide) (by decide) (by decide)
  rw [if_neg (by decide)] at h
  exact h

/-- C6 counterexample: field 1 with wire type 4 fails with the
end-group-for-non-group error, not the wire-type-mismatch error. -/
theorem wiretype_mismatch_cex :
    AdminConfig.Unmarshal [0x0c] = .error .endGroupForNonGroup := by
  rw [AdminConfig.Unmarshal]
  exact acLoop_err [0x0c] 0 ⟨[], []⟩ .endGroupForNonGroup (by decide)
    (by decide)

/-- C7 (amended): a varint continuing past nine continuation bytes drives
the shift to 64 and fails the varint read, the skip routine and all three
Unmarshal functions with the integer-overflow error; a length prefix with
bit 63 set (negative as int64) fails with the invalid-length error; a
length prefix whose end position wraps past 2 ^ 63 (negative postIndex)
also fails with the invalid-length error; and only a representable end
position lying past the buffer end fails with the truncated-input error. -/
theorem varint_overflow_and_length_errors :
    (∀ (b0 b1 b2 b3 b4 b5 b6 b7 b8 b9 : Nat) (rest : Bytes),
      0x80 ≤ b0 → 0x80 ≤ b1 → 0x80 ≤ b2 → 0x80 ≤ b3 → 0x80 ≤ b4 →
      0x80 ≤ b5 → 0x80 ≤ b6 → 0x80 ≤ b7 → 0x80 ≤ b8 → 0x80 ≤ b9 →
      readVarint
          (b0 :: b1 :: b2 :: b3 :: b4 :: b5 :: b6 :: b7 :: b8 :: b9 :: rest)
          0 0 = .error .intOverflow ∧
      skipCommon
          (b0 :: b1 :: b2 :: b3 :: b4 :: b5 :: b6 :: b7 :: b8 :: b9 :: rest)
        = .error .intOverflow ∧
      AdminConfig.Unmarshal
          (b0 :: b1 :: b2 :: b3 :: b4 :: b5 :: b6 :: b7 :: b8 :: b9 :: rest)
        = .error .intOverflow ∧
      TapDSConfig.Unmarshal
          (b0 :: b1 :: b2 :: b3 :: b4 :: b5 :: b6 :: b7 :: b8 :: b9 :: rest)
        = .error .intOverflow ∧
      CommonExtensionConfig.Unmarshal
          (b0 :: b1 :: b2 :: b3 :: b4 :: b5 :: b6 :: b7 :: b8 :: b9 :: rest)
        = .error .intOverflow) ∧
    (∀ (tail : Bytes) (v k2 : Nat), readVarint tail 0 0 = .ok (v, k2) →
      (2 ^ 63 ≤ v →
        AdminConfig.Unmarshal (0x0a :: tail) = .error .invalidLength) ∧
      (v < 2 ^ 63 → 2 ^ 63 ≤ 1 + k2 + v →
        AdminConfig.Unmarshal (0x0a :: tail) = .error .invalidLength) ∧
      (1 + k2 + v < 2 ^ 63 → (0x0a :: tail).length < 1 + k2 + v →
        AdminConfig.Unmarshal (0x0a :: tail) = .error .unexpectedEOF)) := by
  constructor
  · intro b0 b1 b2 b3 b4 b5 b6 b7 b8 b9 rest h0 h1 h2 h3 h4 h5 h6 h7 h8 h9
    have hov := readVarint_tenCont b0 b1 b2 b3 b4 b5 b6 b7 b8 b9 rest
      h0 h1 h2 h3 h4 h5 h6 h7 h8 h9
    refine ⟨hov, ?_, ?_, ?_, ?_⟩
    · rw [skipCommon]
      exact skipLoop_err _ 0 0 .intOverflow (by simp)
        (by rw [skipStep, List.drop_zero, hov])
    · rw [AdminConfig.Unmarshal]
      exact acLoop_err _ 0 _ .intOverflow (by simp)
        (by rw [acStep, List.drop_zero, hov])
    · rw [TapDSConfig.Unmarshal]
      exact tdsLoop_err _ 0 _ .intOverflow (by simp)
        (by rw [tdsStep, List.drop_zero, hov])
    · rw [CommonExtensionConfig.Unmarshal]
      exact cecLoop_err _ 0 _ .intOverflow (by simp)
        (by rw [cecStep, List.drop_zero, hov])
  · intro tail v k2 hrv
    have htag : readVarint ((0x0a :: tail).drop 0) 0 0 = .ok (0x0a, 1) := by
      rw [List.drop_zero]
      exact readVarint_single 0x0a tail (by omega)
    have hdrop : (0x0a :: tail).drop (0 + 1) = tail := rfl
    refine ⟨fun hv => ?_, fun hv63 hwrap => ?_, fun hrep hpast => ?_⟩
    · have hld : ldField (0x0a :: tail) 0 1 = .error .invalidLength := by
        rw [ldField, hdrop, hrv]
        dsimp only
        rw [if_pos hv]
      rw [AdminConfig.Unmarshal]
      refine acLoop_err _ 0 _ .invalidLength (by simp) ?_
      rw [acStep, htag]
      dsimp only
      rw [if_neg (by decide), if_neg (by decide), if_pos (by decide),
        if_neg (by decide), hld]
    · have hld : ldField (0x0a :: tail) 0 1 = .error .invalidLength := by
        rw [ldField, hdrop, hrv]
        dsimp only
        rw [if_neg (by omega), if_pos (by omega)]
      rw [AdminConfig.Unmarshal]
      refine acLoop_err _ 0 _ .invalidLength (by simp) ?_
      rw [acStep, htag]
      dsimp only
      rw [if_neg (by decide), if_neg (by decide), if_pos (by decide),
        if_neg (by decide), hld]
    · have hld : ldField (0x0a :: tail) 0 1 = .error .unexpectedEOF := by
        rw [ldField, hdrop, hrv]
        dsimp only
        rw [if_neg (by omega), if_neg (by omega), if_pos (by omega)]
      rw [AdminConfig.Unmarshal]
      refine acLoop_err _ 0 _ .unexpectedEOF (by simp) ?_
      rw [acStep, htag]
      dsimp only
      rw [if_neg (by decide), if_neg (by decide), if_pos (by decide),
        if_neg (by decide), hld]

/-- C7 witness: ten 0xff bytes overflow the varint read, the skip routine
and Unmarshal; a bit-63 length prefix and a wrapping length prefix fail
with the invalid-length error; a short buffer with a representable length
prefix fails with the truncated-input error. -/
theorem varint_overflow_witness :
    readVarint [0xff, 0xff, 0xff, 0xff, 0xff, 0xff, 0xff, 0xff, 0xff, 0xff]
        0 0 = .error .intOverflow ∧
    skipCommon [0xff, 0xff, 0xff, 0xff, 0xff, 0xff, 0xff, 0xff, 0xff, 0xff]
      = .error .intOverflow ∧
    AdminConfig.Unmarshal
        [0xff, 0xff, 0xff, 0xff, 0xff, 0xff, 0xff, 0xff, 0xff, 0xff]
      = .error .intOverflow ∧
    AdminConfig.Unmarshal
        [0x0a, 0xff, 0xff, 0xff, 0xff, 0xff, 0xff, 0xff, 0xff, 0xff, 0x01]
      = .error .invalidLength ∧
    AdminConfig.Unmarshal [0x0a, 0x05] = .error .unexpectedEOF := by
  have hten := varint_overflow_and_length_errors.1
    0xff 0xff 0xff 0xff 0xff 0xff 0xff 0xff 0xff 0xff []
    (by norm_num) (by norm_num) (by norm_num) (by norm_num) (by norm_num)
    (by norm_num) (by norm_num) (by norm_num) (by norm_num) (by norm_num)
  refine ⟨hten.1, hten.2.1, hten.2.2.1, ?_, ?_⟩
  · exact (varint_overflow_and_length_errors.2
      [0xff, 0xff, 0xff, 0xff, 0xff, 0xff, 0xff, 0xff, 0xff, 0x01]
      (2 ^ 64 - 1) 10 (by decide)).1 (by norm_num)
  · exact (varint_overflow_and_length_errors.2 [0x05] 5 1 (by decide)).2.2
      (by norm_num) (by norm_num)

/-- C7 counterexample: a length prefix of 2 ^ 63 - 1 extends the field far
past the buffer end, yet Unmarshal fails with the invalid-length error
(the end position wraps negative), not the truncated-input error the claim
requires for a field extending past the buffer end. -/
theorem length_wrap_cex :
    AdminConfig.Unmarshal
        [0x0a, 0xff, 0xff, 0xff, 0xff, 0xff, 0xff, 0xff, 0xff, 0x7f]
      = .error .invalidLength := by
  rw [AdminConfig.Unmarshal]
  exact acLoop_err _ 0 ⟨[], []⟩ .invalidLength (by decide) (by decide)

/-- C8: a CommonExtensionConfig whose oneof is set to one populated branch
(and with no unrecognized bytes) marshals to exactly that branch's tag
byte, the varint length of the branch payload's encoding, and that
encoding — nothing else. -/
theorem oneof_single_branch_encoding :
    (∀ a : AdminConfig,
      (CommonExtensionConfig.mk (some (.adminConfig (some a))) []).Marshal
        = 0x0a :: (putVarint a.Marshal.length ++ a.Marshal)) ∧
    (∀ t : TapConfig,
      (CommonExtensionConfig.mk (some (.staticConfig (some t))) []).Marshal
        = 0x12 :: (putVarint t.encode.length ++ t.encode)) ∧
    (∀ t : TapDSConfig,
      (CommonExtensionConfig.mk (some (.tapdsConfig (some t))) []).Marshal
        = 0x1a :: (putVarint t.Marshal.length ++ t.Marshal)) := by
  refine ⟨fun a => ?_, fun t => ?_, fun t => ?_⟩ <;>
    simp [CommonExtensionConfig.Marshal, ConfigType.encode]

/-- C9: AdminConfig with ConfigId "filter-1" marshals to exactly the ten
bytes 0x0a, 0x08 and the ASCII of "filter-1", and Unmarshal of those bytes
returns the equal message. -/
theorem filter1_roundtrip :
    (AdminConfig.mk [102, 105, 108, 116, 101, 114, 45, 49] []).Marshal
      = [0x0a, 0x08, 102, 105, 108, 116, 101, 114, 45, 49] ∧
    AdminConfig.Unmarshal [0x0a, 0x08, 102, 105, 108, 116, 101, 114, 45, 49]
      = .ok (AdminConfig.mk [102, 105, 108, 116, 101, 114, 45, 49] []) :=
  ⟨admin_marshal_filter, admin_unmarshal_filter⟩

/-- C10: every Size method and getter is total on a nil receiver — Size of
nil is 0, getters on nil or on a mismatched oneof variant return the zero
value. -/
theorem nil_receiver_total :
    AdminConfig.Size none = 0 ∧ TapDSConfig.Size none = 0 ∧
    CommonExtensionConfig.Size none = 0 ∧
    CommonExtensionConfig.GetConfigType none = none ∧
    CommonExtensionConfig.GetAdminConfig none = none ∧
    CommonExtensionConfig.GetStaticConfig none = none ∧
    CommonExtensionConfig.GetTapdsConfig none = none ∧
    TapDSConfig.GetConfigSource none = none ∧
    TapDSConfig.GetName none = [] ∧
    AdminConfig.GetConfigId none = [] ∧
    (∀ (v : Option TapConfig) (u : Bytes),
      CommonExtensionConfig.GetAdminConfig
        (some ⟨some (.staticConfig v), u⟩) = none) ∧
    (∀ (v : Option AdminConfig) (u : Bytes),
      CommonExtensionConfig.GetStaticConfig
        (some ⟨some (.adminConfig v), u⟩) = none) ∧
    (∀ (v : Option TapConfig) (u : Bytes),
      CommonExtensionConfig.GetTapdsConfig
        (some ⟨some (.staticConfig v), u⟩) = none) :=
  ⟨rfl, rfl, rfl, rfl, rfl, rfl, rfl, rfl, rfl, rfl,
    fun v u => rfl, fun v u => rfl, fun v u => rfl⟩

end TapCodec
